import Mathlib

/-!
Shallow embedding of the wasm linker core (`src/wasm` of `winksaville/lld`):
the binary-encoder primitives, the code-relocation application, the symbol
table resolution rules, the memory layout, the index-space assignment and
the writer/driver control flow, together with theorems settling the spec
claims about them.
-/

namespace LldWasm

/-- `llvm::wasm::WasmPageSize` (65536 bytes). -/
def WasmPageSize : Nat := 65536

/-! ## LEB128 encoding primitives (llvm `LEB128.h`, used by Writer.cpp) -/

/-- `llvm::countLeadingZeros` on a `uint32_t` value: 32 for zero, otherwise
`31 - log2 x` (number of leading zero bits of the 32-bit representation). -/
def countLeadingZeros32 (x : Nat) : Nat :=
  if x = 0 then 32 else 31 - Nat.log2 x

/-- `PaddingFor5ByteULEB128` (Writer.cpp:85-87): the padding size needed to
write a 32-bit value into a 5-byte ULEB128. -/
def PaddingFor5ByteULEB128 (x : Nat) : Nat :=
  if x = 0 then 4 else 4 - (31 - countLeadingZeros32 x) / 7

/-- The pad tail emitted by `llvm::encodeULEB128` when `Padding != 0`:
`Padding - 1` bytes of `0x80` followed by one `0x00` byte. -/
def ulebPadTail (padding : Nat) : List Nat :=
  List.replicate (padding - 1) 0x80 ++ [0x00]

/-- `llvm::encodeULEB128(Value, p, Padding)`: emit 7-bit groups, with the
continuation bit set while more data or padding follows, then the pad tail. -/
def encodeULEB128 (v : Nat) (padding : Nat) : List Nat :=
  let byte := v % 128
  if h : v / 128 = 0 then
    if padding = 0 then [byte]
    else (byte + 128) :: ulebPadTail padding
  else
    (byte + 128) :: encodeULEB128 (v / 128) padding
decreasing_by
  exact Nat.div_lt_self (Nat.pos_of_ne_zero (fun hz => h (by simp [hz]))) (by omega)

/-- The pad tail emitted by `llvm::encodeSLEB128` when `Padding != 0`:
`Padding - 1` bytes of `PadValue | 0x80` followed by `PadValue`, where
`PadValue` is `0x7f` for negative values and `0x00` otherwise. -/
def slebPadTail (negative : Bool) (padding : Nat) : List Nat :=
  List.replicate (padding - 1) (if negative then 0xFF else 0x80) ++
    [if negative then 0x7F else 0x00]

/-- `llvm::encodeSLEB128(Value, p, Padding)`.  `Value & 0x7f` is `v % 128`
(Euclidean remainder) and the arithmetic shift `Value >>= 7` is floor
division by 128. -/
def encodeSLEB128 (v : Int) (padding : Nat) : List Nat :=
  let byte := (v % 128).toNat
  let rest := v / 128
  if h : (rest = 0 ∧ byte < 64) ∨ (rest = -1 ∧ 64 ≤ byte) then
    if padding = 0 then [byte]
    else (byte + 128) :: slebPadTail (decide (rest < 0)) padding
  else
    (byte + 128) :: encodeSLEB128 rest padding
termination_by v.natAbs
decreasing_by
  simp only [not_or, not_and] at h
  omega

/-- `llvm::getSLEB128Size(Value)`: the byte count of the minimal SLEB128
encoding.  The loop condition `IsMore` of the source is equivalent to the
negation of the stop test used here, since intermediate values keep the sign
of the input value. -/
def getSLEB128Size (v : Int) : Nat :=
  let byte := (v % 128).toNat
  let rest := v / 128
  if h : (rest = 0 ∧ byte < 64) ∨ (rest = -1 ∧ 64 ≤ byte) then 1
  else 1 + getSLEB128Size rest
termination_by v.natAbs
decreasing_by
  simp only [not_or, not_and] at h
  omega

/-- `PaddingFor5ByteSLEB128` (Writer.cpp:90-92). -/
def PaddingFor5ByteSLEB128 (x : Int) : Nat :=
  5 - getSLEB128Size x

/-- `round_up_to_page_size` (Writer.cpp:94-97): `uint32_t` arithmetic,
`PageMask = ~(WasmPageSize - 1)` is `2^32 - WasmPageSize`. -/
def round_up_to_page_size (size : Nat) : Nat :=
  ((size + WasmPageSize - 1) % 2 ^ 32) &&& (2 ^ 32 - WasmPageSize)

/-! ### Length facts about the padded encoders -/

/-- The number of data bytes of a minimal ULEB128 encoding. -/
def ulebMinSize (v : Nat) : Nat :=
  if h : v / 128 = 0 then 1 else ulebMinSize (v / 128) + 1
decreasing_by
  exact Nat.div_lt_self (Nat.pos_of_ne_zero (fun hz => h (by simp [hz]))) (by omega)

theorem encodeULEB128_length (v padding : Nat) :
    (encodeULEB128 v padding).length = ulebMinSize v + padding := by
  induction v using Nat.strong_induction_on with
  | _ v ih =>
    rw [encodeULEB128, ulebMinSize]
    by_cases h : v / 128 = 0
    · simp only [h, dif_pos]
      by_cases hp : padding = 0
      · simp [hp]
      · simp [hp, ulebPadTail]
        omega
    · simp only [h, dif_neg, not_false_iff, List.length_cons]
      rw [ih (v / 128) (Nat.div_lt_self (Nat.pos_of_ne_zero (fun hz => h (by simp [hz]))) (by omega))]
      omega

theorem ulebMinSize_eq_log2 (v : Nat) : ulebMinSize v = Nat.log2 v / 7 + 1 := by
  induction v using Nat.strong_induction_on with
  | _ v ih =>
    rw [ulebMinSize]
    by_cases h : v / 128 = 0
    · have hv : v < 128 := by omega
      have : Nat.log2 v < 7 := by
        rcases Nat.eq_zero_or_pos v with hz | hp
        · simp [hz, Nat.log2]
        · exact (Nat.log2_lt (by omega)).mpr (by omega)
      simp [h, Nat.div_eq_of_lt this]
    · have hv : 128 ≤ v := by
        by_contra hc
        exact h (Nat.div_eq_of_lt (by omega))
      simp only [h, dif_neg, not_false_iff]
      rw [ih (v / 128) (Nat.div_lt_self (by omega) (by omega))]
      have hsplit : v / 128 = v / 2 / 2 / 2 / 2 / 2 / 2 / 2 := by
        simp [Nat.div_div_eq_div_mul]
      have hlog : Nat.log2 (v / 128) = Nat.log2 v - 7 := by
        rw [Nat.log2_eq_log_two, Nat.log2_eq_log_two, hsplit,
          Nat.log_div_base, Nat.log_div_base, Nat.log_div_base, Nat.log_div_base,
          Nat.log_div_base, Nat.log_div_base, Nat.log_div_base]
        omega
      have hge : 7 ≤ Nat.log2 v := (Nat.le_log2 (by omega)).mpr (by norm_num; omega)
      omega

/-- With its 5-byte padding, the ULEB128 encoding of a `uint32_t` value
occupies exactly 5 bytes. -/
theorem encodeULEB128_padded_length (v : Nat) (h : v < 2 ^ 32) :
    (encodeULEB128 v (PaddingFor5ByteULEB128 v)).length = 5 := by
  rw [encodeULEB128_length, ulebMinSize_eq_log2, PaddingFor5ByteULEB128]
  by_cases hz : v = 0
  · simp [hz, Nat.log2]
  · have hlt : Nat.log2 v < 32 := (Nat.log2_lt hz).mpr h
    simp only [hz, if_neg, countLeadingZeros32, ite_false]
    omega

theorem encodeSLEB128_length (v : Int) (padding : Nat) :
    (encodeSLEB128 v padding).length = getSLEB128Size v + padding := by
  generalize hN : v.natAbs = N
  induction N using Nat.strong_induction_on generalizing v with
  | _ N ih =>
    rw [encodeSLEB128, getSLEB128Size]
    by_cases h : (v / 128 = 0 ∧ (v % 128).toNat < 64) ∨ (v / 128 = -1 ∧ 64 ≤ (v % 128).toNat)
    · simp only [h, dif_pos]
      by_cases hp : padding = 0
      · simp [hp]
      · simp [hp, slebPadTail]
        omega
    · simp only [h, dif_neg, not_false_iff, List.length_cons]
      have hdec : (v / 128).natAbs < N := by
        subst hN
        simp only [not_or, not_and] at h
        omega
      rw [ih (v / 128).natAbs hdec (v / 128) rfl]
      omega

theorem getSLEB128Size_pos (v : Int) : 1 ≤ getSLEB128Size v := by
  rw [getSLEB128Size]
  split <;> omega

theorem getSLEB128Size_le (k : Nat) (v : Int) (hk : 1 ≤ k)
    (h1 : -(2 ^ (7 * k - 1) : Int) ≤ v) (h2 : v < 2 ^ (7 * k - 1)) :
    getSLEB128Size v ≤ k := by
  induction k generalizing v with
  | zero => omega
  | succ k ihk =>
    rw [getSLEB128Size]
    by_cases h : (v / 128 = 0 ∧ (v % 128).toNat < 64) ∨ (v / 128 = -1 ∧ 64 ≤ (v % 128).toNat)
    · simp only [h, dif_pos]
      omega
    · simp only [h, dif_neg, not_false_iff]
      rcases Nat.eq_zero_or_pos k with hk0 | hkpos
      · exfalso
        subst hk0
        simp only [not_or, not_and] at h
        norm_num at h1 h2
        omega
      · have hpow : (2 : Int) ^ (7 * (k + 1) - 1) = 2 ^ (7 * k - 1) * 128 := by
          have he : 7 * (k + 1) - 1 = (7 * k - 1) + 7 := by omega
          rw [he, pow_add]
          norm_num
        have hC : (0 : Int) < 2 ^ (7 * k - 1) := by positivity
        rw [hpow] at h1 h2
        have hrec := ihk (v / 128) hkpos (by omega) (by omega)
        omega

theorem getSLEB128Size_int32 (v : Int) (h1 : -(2 ^ 31) ≤ v) (h2 : v < 2 ^ 31) :
    getSLEB128Size v ≤ 5 := by
  refine getSLEB128Size_le 5 v (by norm_num) ?_ ?_ <;> norm_num <;> omega

/-- With its 5-byte padding, the SLEB128 encoding of an `int32_t` value
occupies exactly 5 bytes. -/
theorem encodeSLEB128_padded_length (v : Int) (h1 : -(2 ^ 31) ≤ v) (h2 : v < 2 ^ 31) :
    (encodeSLEB128 v (PaddingFor5ByteSLEB128 v)).length = 5 := by
  rw [encodeSLEB128_length, PaddingFor5ByteSLEB128]
  have h5 := getSLEB128Size_int32 v h1 h2
  have h0 := getSLEB128Size_pos v
  omega

theorem land_high_mask (n : Nat) (hn : n < 2 ^ 32) :
    n &&& (2 ^ 32 - 2 ^ 16) = n / 2 ^ 16 * 2 ^ 16 := by
  have hmask : (2 ^ 32 - 2 ^ 16 : Nat) = (2 ^ 16 - 1) <<< 16 := by
    rw [Nat.shiftLeft_eq]
    norm_num
  have hrhs : n / 2 ^ 16 * 2 ^ 16 = (n >>> 16) <<< 16 := by
    rw [Nat.shiftRight_eq_div_pow, Nat.shiftLeft_eq]
  rw [hmask, hrhs]
  apply Nat.eq_of_testBit_eq
  intro i
  rw [Nat.testBit_land, Nat.testBit_shiftLeft, Nat.testBit_shiftLeft, Nat.testBit_shiftRight,
    Nat.testBit_two_pow_sub_one]
  by_cases h16 : 16 ≤ i
  · have hplus : 16 + (i - 16) = i := by omega
    rw [hplus]
    by_cases h32 : i < 32
    · simp [show i ≥ 16 from h16, show i - 16 < 16 by omega]
    · have hbit : n.testBit i = false :=
        Nat.testBit_lt_two_pow (lt_of_lt_of_le hn (Nat.pow_le_pow_right (by norm_num) (by omega)))
      simp [hbit]
  · simp [show ¬(i ≥ 16) by omega]

theorem round_up_to_page_size_eq (size : Nat) (h : size + WasmPageSize - 1 < 2 ^ 32) :
    round_up_to_page_size size =
      (size + WasmPageSize - 1) / WasmPageSize * WasmPageSize := by
  rw [round_up_to_page_size, Nat.mod_eq_of_lt h]
  exact land_high_mask _ h

theorem round_up_to_page_size_ge (size : Nat) (h : size + WasmPageSize - 1 < 2 ^ 32) :
    size ≤ round_up_to_page_size size := by
  rw [round_up_to_page_size_eq size h, WasmPageSize]
  omega

theorem round_up_to_page_size_dvd (size : Nat) (h : size + WasmPageSize - 1 < 2 ^ 32) :
    WasmPageSize ∣ round_up_to_page_size size := by
  rw [round_up_to_page_size_eq size h]
  exact dvd_mul_left _ _

/-! ## Memory layout (`Writer::layoutMemory`, Writer.cpp:732-759)

Objects are represented by the `Initial` field of their first memory
(if they have one): `none` when `memories().size() == 0`. -/

/-- Total static-data bytes: the sum of `Initial * WasmPageSize` over
all objects (objects without a memory or with `Initial = 0` contribute 0). -/
def sumInitialBytes (mems : List (Option Nat)) : Nat :=
  (mems.map (fun m => m.getD 0 * WasmPageSize)).sum

/-- The data-offset assignment loop of `layoutMemory` (uint32 arithmetic):
each object whose first memory has `Initial > 0` records
`DataOffset = MemoryPtr` and advances `MemoryPtr += Initial * WasmPageSize`.
Returns the per-object offsets and the final `MemoryPtr`. -/
def layoutDataOffsets (ptr0 : Nat) (mems : List (Option Nat)) :
    List (Option Nat) × Nat :=
  match mems with
  | [] => ([], ptr0)
  | none :: rest =>
    let r := layoutDataOffsets ptr0 rest
    (none :: r.1, r.2)
  | some ini :: rest =>
    if ini = 0 then
      let r := layoutDataOffsets ptr0 rest
      (none :: r.1, r.2)
    else
      let ptr1 := (ptr0 + ini * WasmPageSize % 2 ^ 32) % 2 ^ 32
      let r := layoutDataOffsets ptr1 rest
      (some ptr0 :: r.1, r.2)

/-- Result of `Writer::layoutMemory`. -/
structure LayoutResult where
  dataOffsets : List (Option Nat)
  stackPointerInit : Option Nat
  totalMemoryPages : Nat
  memoryPtrEnd : Nat
  deriving Repr, DecidableEq

/-- `Writer::layoutMemory` (Writer.cpp:732-759): start `MemoryPtr` at
`WasmPageSize`; when not relocatable advance it by `ZStackSize` and store it
into the stack-pointer synthetic global's init expression; lay out each
object's static data; round the final pointer up to a page multiple. -/
def layoutMemory (relocatable : Bool) (zStackSize : Nat)
    (mems : List (Option Nat)) : LayoutResult :=
  let memoryPtr := WasmPageSize
  let stepped :=
    if relocatable then (memoryPtr, (none : Option Nat))
    else
      let p := (memoryPtr + zStackSize) % 2 ^ 32
      (p, some p)
  let r := layoutDataOffsets stepped.1 mems
  let memSize := round_up_to_page_size r.2
  { dataOffsets := r.1
    stackPointerInit := stepped.2
    totalMemoryPages := memSize / WasmPageSize
    memoryPtrEnd := r.2 }

theorem layoutDataOffsets_spec (mems : List (Option Nat)) (ptr0 : Nat)
    (h : ptr0 + sumInitialBytes mems < 2 ^ 32) :
    (layoutDataOffsets ptr0 mems).2 = ptr0 + sumInitialBytes mems ∧
    (layoutDataOffsets ptr0 mems).1.length = mems.length ∧
    ∀ i ini, mems[i]? = some (some ini) → 0 < ini →
      (layoutDataOffsets ptr0 mems).1[i]? =
        some (some (ptr0 + sumInitialBytes (mems.take i))) := by
  induction mems generalizing ptr0 with
  | nil =>
    refine ⟨by simp [layoutDataOffsets, sumInitialBytes], by simp [layoutDataOffsets], ?_⟩
    intro i ini hi
    simp at hi
  | cons m rest ih =>
    cases m with
    | none =>
      have hrest : ptr0 + sumInitialBytes rest < 2 ^ 32 := by
        simpa [sumInitialBytes] using h
      obtain ⟨h1, h2, h3⟩ := ih ptr0 hrest
      refine ⟨?_, ?_, ?_⟩
      · simpa [layoutDataOffsets, sumInitialBytes] using h1
      · simpa [layoutDataOffsets] using h2
      · intro i ini hi hpos
        cases i with
        | zero => simp at hi
        | succ j =>
          simp only [List.getElem?_cons_succ] at hi
          simpa [layoutDataOffsets, sumInitialBytes] using h3 j ini hi hpos
    | some ini0 =>
      by_cases hz : ini0 = 0
      · subst hz
        have hrest : ptr0 + sumInitialBytes rest < 2 ^ 32 := by
          simpa [sumInitialBytes] using h
        obtain ⟨h1, h2, h3⟩ := ih ptr0 hrest
        refine ⟨?_, ?_, ?_⟩
        · simpa [layoutDataOffsets, sumInitialBytes] using h1
        · simpa [layoutDataOffsets] using h2
        · intro i ini hi hpos
          cases i with
          | zero =>
            simp only [List.getElem?_cons_zero, Option.some_inj] at hi
            omega
          | succ j =>
            simp only [List.getElem?_cons_succ] at hi
            simpa [layoutDataOffsets, sumInitialBytes] using h3 j ini hi hpos
      · have hsum : sumInitialBytes (some ini0 :: rest) =
            ini0 * WasmPageSize + sumInitialBytes rest := by
          simp [sumInitialBytes]
        have hmul : ini0 * WasmPageSize % 2 ^ 32 = ini0 * WasmPageSize := by
          apply Nat.mod_eq_of_lt
          omega
        have hadd : (ptr0 + ini0 * WasmPageSize % 2 ^ 32) % 2 ^ 32 =
            ptr0 + ini0 * WasmPageSize := by
          rw [hmul]
          apply Nat.mod_eq_of_lt
          omega
        have hrest : ptr0 + ini0 * WasmPageSize + sumInitialBytes rest < 2 ^ 32 := by
          omega
        obtain ⟨h1, h2, h3⟩ := ih (ptr0 + ini0 * WasmPageSize) hrest
        refine ⟨?_, ?_, ?_⟩
        · simp only [layoutDataOffsets, hz, if_neg, ite_false, hadd]
          rw [h1, hsum]
          omega
        · simp only [layoutDataOffsets, hz, if_neg, ite_false, hadd, List.length_cons]
          rw [h2]
        · intro i ini hi hpos
          cases i with
          | zero =>
            simp [layoutDataOffsets, hz, hadd, sumInitialBytes]
          | succ j =>
            simp only [List.getElem?_cons_succ] at hi
            have := h3 j ini hi hpos
            simp only [layoutDataOffsets, hz, if_neg, ite_false, hadd,
              List.getElem?_cons_succ, List.take_succ_cons]
            rw [this]
            have hsum' : sumInitialBytes (some ini0 :: List.take j rest) =
                ini0 * WasmPageSize + sumInitialBytes (List.take j rest) := by
              simp [sumInitialBytes]
            rw [hsum']
            simp only [Option.some_inj]
            omega

/-- C4: for a non-relocatable link, after `layoutMemory` the stack-pointer
synthetic global's init-expression value equals `WasmPageSize + ZStackSize`;
each object in input order whose first memory has `Initial > 0` gets
`DataOffset = WasmPageSize + ZStackSize` plus the sum of
`Initial * WasmPageSize` over earlier such objects; and
`TotalMemoryPages * WasmPageSize` is a multiple of `WasmPageSize` that is at
least `WasmPageSize + ZStackSize` plus the total static-data bytes of all
objects.  (Stated under the no-overflow side condition of the uint32
arithmetic.) -/
theorem claim_C4_layoutMemory (zStackSize : Nat) (mems : List (Option Nat))
    (hov : zStackSize + sumInitialBytes mems + 2 * WasmPageSize ≤ 2 ^ 32) :
    (layoutMemory false zStackSize mems).stackPointerInit =
      some (WasmPageSize + zStackSize) ∧
    (∀ i ini, mems[i]? = some (some ini) → 0 < ini →
      (layoutMemory false zStackSize mems).dataOffsets[i]? =
        some (some (WasmPageSize + zStackSize + sumInitialBytes (mems.take i)))) ∧
    WasmPageSize ∣ (layoutMemory false zStackSize mems).totalMemoryPages * WasmPageSize ∧
    WasmPageSize + zStackSize + sumInitialBytes mems ≤
      (layoutMemory false zStackSize mems).totalMemoryPages * WasmPageSize := by
  have hW : WasmPageSize = 65536 := rfl
  have hL : layoutMemory false zStackSize mems =
      { dataOffsets := (layoutDataOffsets ((WasmPageSize + zStackSize) % 2 ^ 32) mems).1
        stackPointerInit := some ((WasmPageSize + zStackSize) % 2 ^ 32)
        totalMemoryPages :=
          round_up_to_page_size
            (layoutDataOffsets ((WasmPageSize + zStackSize) % 2 ^ 32) mems).2 / WasmPageSize
        memoryPtrEnd :=
          (layoutDataOffsets ((WasmPageSize + zStackSize) % 2 ^ 32) mems).2 } := rfl
  have hsp : (WasmPageSize + zStackSize) % 2 ^ 32 = WasmPageSize + zStackSize :=
    Nat.mod_eq_of_lt (by omega)
  rw [hL, hsp]
  have hspec := layoutDataOffsets_spec mems (WasmPageSize + zStackSize) (by omega)
  obtain ⟨hend, _, hoffs⟩ := hspec
  have hrup : (layoutDataOffsets (WasmPageSize + zStackSize) mems).2 + WasmPageSize - 1 <
      2 ^ 32 := by
    rw [hend]; omega
  have hdvd := round_up_to_page_size_dvd _ hrup
  have hge := round_up_to_page_size_ge _ hrup
  have hcancel : round_up_to_page_size (layoutDataOffsets (WasmPageSize + zStackSize) mems).2 /
      WasmPageSize * WasmPageSize =
      round_up_to_page_size (layoutDataOffsets (WasmPageSize + zStackSize) mems).2 :=
    Nat.div_mul_cancel hdvd
  refine ⟨rfl, ?_, ?_, ?_⟩
  · intro i ini hi hpos
    exact hoffs i ini hi hpos
  · simp only
    rw [hcancel]
    exact hdvd
  · simp only
    rw [hcancel, ← hend]
    exact hge

theorem claim_C4_witness :
    (65536 + sumInitialBytes [some 1, none, some 0, some 2] + 2 * WasmPageSize ≤ 2 ^ 32) ∧
    (layoutMemory false 65536 [some 1, none, some 0, some 2]).dataOffsets[3]? =
      some (some (WasmPageSize + 65536 +
        sumInitialBytes (List.take 3 [some 1, none, some 0, some 2]))) :=
  ⟨by decide,
   (claim_C4_layoutMemory 65536 [some 1, none, some 0, some 2] (by decide)).2.1 3 2
     (by decide) (by decide)⟩

/-! ## Code relocations (`Writer::applyCodeRelocations`, Writer.cpp:492-550) -/

/-- The wasm relocation types of the writer's relocation switch. -/
inductive RelocType
  | TYPE_INDEX_LEB
  | FUNCTION_INDEX_LEB
  | TABLE_INDEX_I32
  | TABLE_INDEX_SLEB
  | GLOBAL_INDEX_LEB
  | GLOBAL_ADDR_LEB
  | GLOBAL_ADDR_SLEB
  | GLOBAL_ADDR_I32
  deriving Repr, DecidableEq

/-- `llvm::wasm::WasmRelocation` (all fields `uint32_t`). -/
structure WasmRelocation where
  type : RelocType
  index : Nat
  offset : Nat
  addend : Nat
  deriving Repr, DecidableEq

/-- The index-relocation interface of an `ObjectFile` (declared in
InputFiles.h; `applyCodeRelocations` consumes it only through these mapping
functions, so they are parameters of the embedding). -/
structure RelocCtx where
  relocateTypeIndex : Nat → Nat
  relocateFunctionIndex : Nat → Nat
  relocateTableIndex : Nat → Nat
  relocateGlobalIndex : Nat → Nat
  getGlobalAddress : Nat → Nat

/-- First switch of the relocation loop (Writer.cpp:497-519): the `int64_t`
new value per relocation type. -/
def calcRelocValue (ctx : RelocCtx) (r : WasmRelocation) : Int :=
  match r.type with
  | .TYPE_INDEX_LEB => ctx.relocateTypeIndex r.index
  | .FUNCTION_INDEX_LEB => ctx.relocateFunctionIndex r.index
  | .TABLE_INDEX_I32 | .TABLE_INDEX_SLEB => ctx.relocateTableIndex r.index + r.addend
  | .GLOBAL_INDEX_LEB => ctx.relocateGlobalIndex r.index + r.addend
  | .GLOBAL_ADDR_LEB | .GLOBAL_ADDR_SLEB | .GLOBAL_ADDR_I32 =>
    ctx.getGlobalAddress r.index + r.addend

/-- C truncation of an `int64_t` to `uint32_t`. -/
def toUInt32 (v : Int) : Nat := (v % 2 ^ 32).toNat

/-- C conversion of an `int64_t` to `uint64_t`. -/
def toUInt64 (v : Int) : Nat := (v % 2 ^ 64).toNat

/-- C truncation of an `int64_t` to `int32_t`. -/
def toInt32 (v : Int) : Int := (v + 2 ^ 31) % 2 ^ 32 - 2 ^ 31

/-- In-place write of `bytes` at byte position `off` of a buffer. -/
def spliceBytes (buf : List Nat) (off : Nat) (bytes : List Nat) : List Nat :=
  buf.take off ++ bytes ++ buf.drop (off + bytes.length)

/-- Body of the relocation loop, second switch (Writer.cpp:523-547): rewrite
the field at `Reloc.Offset` with the padded re-encoding of the new value.
`none` models `llvm_unreachable("unimplemented")` for the `*_I32` types. -/
def applyOneReloc (ctx : RelocCtx) (r : WasmRelocation) (buf : List Nat) :
    Option (List Nat) :=
  let newValue := calcRelocValue ctx r
  match r.type with
  | .TYPE_INDEX_LEB | .FUNCTION_INDEX_LEB | .GLOBAL_ADDR_LEB | .GLOBAL_INDEX_LEB =>
    let padding := PaddingFor5ByteULEB128 (toUInt32 newValue)
    some (spliceBytes buf r.offset (encodeULEB128 (toUInt64 newValue) padding))
  | .TABLE_INDEX_SLEB | .GLOBAL_ADDR_SLEB =>
    let padding := PaddingFor5ByteSLEB128 (toInt32 newValue)
    some (spliceBytes buf r.offset (encodeSLEB128 newValue padding))
  | .TABLE_INDEX_I32 | .GLOBAL_ADDR_I32 => none

/-- `Writer::applyCodeRelocations`: walk the object's code relocations,
applying each in place on the copied code buffer. -/
def applyCodeRelocations (ctx : RelocCtx) (relocs : List WasmRelocation)
    (buf : List Nat) : Option (List Nat) :=
  match relocs with
  | [] => some buf
  | r :: rest => (applyOneReloc ctx r buf).bind (applyCodeRelocations ctx rest)

theorem spliceBytes_length (buf : List Nat) (off : Nat) (bytes : List Nat)
    (h : off + bytes.length ≤ buf.length) :
    (spliceBytes buf off bytes).length = buf.length := by
  simp only [spliceBytes, List.length_append, List.length_take, List.length_drop]
  omega

theorem spliceBytes_getElem_outside (buf : List Nat) (off : Nat) (bytes : List Nat)
    (i : Nat) (h : off + bytes.length ≤ buf.length)
    (hi : i < off ∨ off + bytes.length ≤ i) :
    (spliceBytes buf off bytes)[i]? = buf[i]? := by
  have htl : (buf.take off).length = off := by
    rw [List.length_take]
    omega
  have htbl : (buf.take off ++ bytes).length = off + bytes.length := by
    rw [List.length_append, htl]
  rcases hi with hlt | hge
  · rw [spliceBytes, List.getElem?_append,
      if_pos (show i < (buf.take off ++ bytes).length by omega),
      List.getElem?_append, if_pos (show i < (buf.take off).length by omega),
      List.getElem?_take, if_pos hlt]
  · rw [spliceBytes, List.getElem?_append_right (by omega), List.getElem?_drop, htbl]
    have hidx : off + bytes.length + (i - (off + bytes.length)) = i := by omega
    rw [hidx]

theorem calcRelocValue_nonneg (ctx : RelocCtx) (r : WasmRelocation) :
    0 ≤ calcRelocValue ctx r := by
  obtain ⟨ty, idx, off, add⟩ := r
  cases ty <;> simp only [calcRelocValue] <;> positivity

theorem applyOneReloc_uleb (ctx : RelocCtx) (ty : RelocType) (idx off add : Nat)
    (buf : List Nat)
    (hty : ty = .TYPE_INDEX_LEB ∨ ty = .FUNCTION_INDEX_LEB ∨
      ty = .GLOBAL_ADDR_LEB ∨ ty = .GLOBAL_INDEX_LEB)
    (hU : calcRelocValue ctx ⟨ty, idx, off, add⟩ < 2 ^ 32) :
    (encodeULEB128 (calcRelocValue ctx ⟨ty, idx, off, add⟩).toNat
        (PaddingFor5ByteULEB128 (calcRelocValue ctx ⟨ty, idx, off, add⟩).toNat)).length = 5 ∧
    applyOneReloc ctx ⟨ty, idx, off, add⟩ buf = some (buf.take off ++
      encodeULEB128 (calcRelocValue ctx ⟨ty, idx, off, add⟩).toNat
        (PaddingFor5ByteULEB128 (calcRelocValue ctx ⟨ty, idx, off, add⟩).toNat) ++
      buf.drop (off + 5)) := by
  have hnn := calcRelocValue_nonneg ctx ⟨ty, idx, off, add⟩
  have h32 : (calcRelocValue ctx ⟨ty, idx, off, add⟩).toNat < 2 ^ 32 := by omega
  have h64 : toUInt64 (calcRelocValue ctx ⟨ty, idx, off, add⟩) =
      (calcRelocValue ctx ⟨ty, idx, off, add⟩).toNat := by
    unfold toUInt64
    omega
  have h32' : toUInt32 (calcRelocValue ctx ⟨ty, idx, off, add⟩) =
      (calcRelocValue ctx ⟨ty, idx, off, add⟩).toNat := by
    unfold toUInt32
    omega
  have hlen := encodeULEB128_padded_length
    (calcRelocValue ctx ⟨ty, idx, off, add⟩).toNat h32
  refine ⟨hlen, ?_⟩
  rcases hty with h | h | h | h <;> subst h <;>
    simp only [applyOneReloc, h64, h32', spliceBytes, hlen]

theorem applyOneReloc_sleb (ctx : RelocCtx) (ty : RelocType) (idx off add : Nat)
    (buf : List Nat)
    (hty : ty = .TABLE_INDEX_SLEB ∨ ty = .GLOBAL_ADDR_SLEB)
    (hS : calcRelocValue ctx ⟨ty, idx, off, add⟩ < 2 ^ 31) :
    (encodeSLEB128 (calcRelocValue ctx ⟨ty, idx, off, add⟩)
        (PaddingFor5ByteSLEB128 (calcRelocValue ctx ⟨ty, idx, off, add⟩))).length = 5 ∧
    applyOneReloc ctx ⟨ty, idx, off, add⟩ buf = some (buf.take off ++
      encodeSLEB128 (calcRelocValue ctx ⟨ty, idx, off, add⟩)
        (PaddingFor5ByteSLEB128 (calcRelocValue ctx ⟨ty, idx, off, add⟩)) ++
      buf.drop (off + 5)) := by
  have hnn := calcRelocValue_nonneg ctx ⟨ty, idx, off, add⟩
  have hi32 : toInt32 (calcRelocValue ctx ⟨ty, idx, off, add⟩) =
      calcRelocValue ctx ⟨ty, idx, off, add⟩ := by
    unfold toInt32
    omega
  have hlen := encodeSLEB128_padded_length (calcRelocValue ctx ⟨ty, idx, off, add⟩)
    (by omega) hS
  refine ⟨hlen, ?_⟩
  rcases hty with h | h <;> subst h <;>
    simp only [applyOneReloc, hi32, spliceBytes, hlen]

theorem applyOneReloc_frame (ctx : RelocCtx) (r : WasmRelocation) (buf out : List Nat)
    (h5 : r.offset + 5 ≤ buf.length)
    (hU : calcRelocValue ctx r < 2 ^ 32)
    (hS : (r.type = .TABLE_INDEX_SLEB ∨ r.type = .GLOBAL_ADDR_SLEB) →
      calcRelocValue ctx r < 2 ^ 31)
    (hout : applyOneReloc ctx r buf = some out) :
    out.length = buf.length ∧
    ∀ i, (i < r.offset ∨ r.offset + 5 ≤ i) → out[i]? = buf[i]? := by
  obtain ⟨ty, idx, off, add⟩ := r
  simp only at h5 hU hS hout ⊢
  have main : ∀ enc : List Nat, enc.length = 5 →
      applyOneReloc ctx ⟨ty, idx, off, add⟩ buf =
        some (buf.take off ++ enc ++ buf.drop (off + 5)) →
      out.length = buf.length ∧
      ∀ i, (i < off ∨ off + 5 ≤ i) → out[i]? = buf[i]? := by
    intro enc hlen happ
    rw [happ, Option.some_inj] at hout
    have hsp : buf.take off ++ enc ++ buf.drop (off + 5) = spliceBytes buf off enc := by
      rw [spliceBytes, hlen]
    rw [← hout, hsp]
    constructor
    · exact spliceBytes_length _ _ _ (by omega)
    · intro i hi
      exact spliceBytes_getElem_outside _ _ _ _ (by omega) (by omega)
  cases ty with
  | TYPE_INDEX_LEB =>
    obtain ⟨hlen, happ⟩ := applyOneReloc_uleb ctx _ idx off add buf (Or.inl rfl) hU
    exact main _ hlen happ
  | FUNCTION_INDEX_LEB =>
    obtain ⟨hlen, happ⟩ := applyOneReloc_uleb ctx _ idx off add buf
      (Or.inr (Or.inl rfl)) hU
    exact main _ hlen happ
  | GLOBAL_ADDR_LEB =>
    obtain ⟨hlen, happ⟩ := applyOneReloc_uleb ctx _ idx off add buf
      (Or.inr (Or.inr (Or.inl rfl))) hU
    exact main _ hlen happ
  | GLOBAL_INDEX_LEB =>
    obtain ⟨hlen, happ⟩ := applyOneReloc_uleb ctx _ idx off add buf
      (Or.inr (Or.inr (Or.inr rfl))) hU
    exact main _ hlen happ
  | TABLE_INDEX_SLEB =>
    obtain ⟨hlen, happ⟩ := applyOneReloc_sleb ctx _ idx off add buf (Or.inl rfl)
      (hS (Or.inl rfl))
    exact main _ hlen happ
  | GLOBAL_ADDR_SLEB =>
    obtain ⟨hlen, happ⟩ := applyOneReloc_sleb ctx _ idx off add buf (Or.inr rfl)
      (hS (Or.inr rfl))
    exact main _ hlen happ
  | TABLE_INDEX_I32 => simp [applyOneReloc] at hout
  | GLOBAL_ADDR_I32 => simp [applyOneReloc] at hout

/-- C2: for every code relocation, `applyCodeRelocations` writes at the
relocation's `Offset` in the copied code buffer exactly 5 bytes encoding the
new value — `relocateTypeIndex(Index)` for TYPE_INDEX_LEB,
`relocateFunctionIndex(Index)` for FUNCTION_INDEX_LEB,
`relocateTableIndex(Index) + Addend` for TABLE_INDEX_SLEB,
`relocateGlobalIndex(Index) + Addend` for GLOBAL_INDEX_LEB,
`getGlobalAddress(Index) + Addend` for GLOBAL_ADDR_LEB/GLOBAL_ADDR_SLEB —
re-encoded as padded ULEB128 for `*_LEB` types and padded SLEB128 for
`*_SLEB` types so the 5-byte field width is preserved, leaving every byte
outside the rewritten field unchanged; the `*_I32` types are unimplemented.
(Value-range hypotheses mirror the `assert`s guarding the two writes.) -/
theorem claim_C2_applyCodeRelocations (ctx : RelocCtx) (r : WasmRelocation)
    (buf : List Nat) (rest : List WasmRelocation)
    (h5 : r.offset + 5 ≤ buf.length)
    (hU : calcRelocValue ctx r < 2 ^ 32)
    (hS : (r.type = .TABLE_INDEX_SLEB ∨ r.type = .GLOBAL_ADDR_SLEB) →
      calcRelocValue ctx r < 2 ^ 31) :
    (r.type = .TYPE_INDEX_LEB →
      calcRelocValue ctx r = ctx.relocateTypeIndex r.index) ∧
    (r.type = .FUNCTION_INDEX_LEB →
      calcRelocValue ctx r = ctx.relocateFunctionIndex r.index) ∧
    (r.type = .TABLE_INDEX_SLEB →
      calcRelocValue ctx r = ctx.relocateTableIndex r.index + r.addend) ∧
    (r.type = .GLOBAL_INDEX_LEB →
      calcRelocValue ctx r = ctx.relocateGlobalIndex r.index + r.addend) ∧
    ((r.type = .GLOBAL_ADDR_LEB ∨ r.type = .GLOBAL_ADDR_SLEB) →
      calcRelocValue ctx r = ctx.getGlobalAddress r.index + r.addend) ∧
    ((r.type = .TYPE_INDEX_LEB ∨ r.type = .FUNCTION_INDEX_LEB ∨
      r.type = .GLOBAL_ADDR_LEB ∨ r.type = .GLOBAL_INDEX_LEB) →
      (encodeULEB128 (calcRelocValue ctx r).toNat
          (PaddingFor5ByteULEB128 (calcRelocValue ctx r).toNat)).length = 5 ∧
      applyOneReloc ctx r buf = some (buf.take r.offset ++
        encodeULEB128 (calcRelocValue ctx r).toNat
          (PaddingFor5ByteULEB128 (calcRelocValue ctx r).toNat) ++
        buf.drop (r.offset + 5))) ∧
    ((r.type = .TABLE_INDEX_SLEB ∨ r.type = .GLOBAL_ADDR_SLEB) →
      (encodeSLEB128 (calcRelocValue ctx r)
          (PaddingFor5ByteSLEB128 (calcRelocValue ctx r))).length = 5 ∧
      applyOneReloc ctx r buf = some (buf.take r.offset ++
        encodeSLEB128 (calcRelocValue ctx r)
          (PaddingFor5ByteSLEB128 (calcRelocValue ctx r)) ++
        buf.drop (r.offset + 5))) ∧
    (∀ out, applyOneReloc ctx r buf = some out →
      out.length = buf.length ∧
      ∀ i, (i < r.offset ∨ r.offset + 5 ≤ i) → out[i]? = buf[i]?) ∧
    ((r.type = .TABLE_INDEX_I32 ∨ r.type = .GLOBAL_ADDR_I32) →
      applyOneReloc ctx r buf = none) ∧
    applyCodeRelocations ctx (r :: rest) buf =
      (applyOneReloc ctx r buf).bind (applyCodeRelocations ctx rest) := by
  refine ⟨?_, ?_, ?_, ?_, ?_, ?_, ?_, ?_, ?_, rfl⟩
  · intro h
    obtain ⟨ty, idx, off, add⟩ := r
    cases h
    rfl
  · intro h
    obtain ⟨ty, idx, off, add⟩ := r
    cases h
    rfl
  · intro h
    obtain ⟨ty, idx, off, add⟩ := r
    cases h
    rfl
  · intro h
    obtain ⟨ty, idx, off, add⟩ := r
    cases h
    rfl
  · intro h
    obtain ⟨ty, idx, off, add⟩ := r
    rcases h with h | h <;> (cases h; rfl)
  · intro hty
    obtain ⟨ty, idx, off, add⟩ := r
    exact applyOneReloc_uleb ctx ty idx off add buf hty hU
  · intro hty
    obtain ⟨ty, idx, off, add⟩ := r
    exact applyOneReloc_sleb ctx ty idx off add buf hty (hS hty)
  · intro out hout
    exact applyOneReloc_frame ctx r buf out h5 hU hS hout
  · intro hty
    obtain ⟨ty, idx, off, add⟩ := r
    rcases hty with h | h <;> (cases h; rfl)

/-- Sample relocation context used to witness C2. -/
def sampleRelocCtx : RelocCtx :=
  { relocateTypeIndex := fun i => i + 7
    relocateFunctionIndex := fun i => i + 7
    relocateTableIndex := fun i => i
    relocateGlobalIndex := fun i => i + 3
    getGlobalAddress := fun i => 65536 + i }

theorem claim_C2_witness :
    ((1 + 5 ≤ (List.replicate 10 0).length) ∧
      calcRelocValue sampleRelocCtx ⟨.FUNCTION_INDEX_LEB, 2, 1, 0⟩ < 2 ^ 32) ∧
    applyOneReloc sampleRelocCtx ⟨.FUNCTION_INDEX_LEB, 2, 1, 0⟩ (List.replicate 10 0) =
      some ((List.replicate 10 0).take 1 ++
        encodeULEB128 (calcRelocValue sampleRelocCtx ⟨.FUNCTION_INDEX_LEB, 2, 1, 0⟩).toNat
          (PaddingFor5ByteULEB128
            (calcRelocValue sampleRelocCtx ⟨.FUNCTION_INDEX_LEB, 2, 1, 0⟩).toNat) ++
        (List.replicate 10 0).drop (1 + 5)) :=
  ⟨⟨by decide, by decide⟩,
   ((claim_C2_applyCodeRelocations sampleRelocCtx ⟨.FUNCTION_INDEX_LEB, 2, 1, 0⟩
      (List.replicate 10 0) [] (by decide) (by decide) (by decide)).2.2.2.2.2.1
      (Or.inr (Or.inl rfl))).2⟩

/-! ## Symbol table (SymbolTable.cpp, Symbols.cpp) -/

/-- `Symbol::Kind` (the five-way tagged kind, Symbols.cpp:98-106). -/
inductive SymbolKind
  | DefinedFunctionKind
  | DefinedGlobalKind
  | UndefinedFunctionKind
  | UndefinedGlobalKind
  | LazyKind
  deriving Repr, DecidableEq

/-- `WasmSymbol::SymbolType` of the external wasm object reader. -/
inductive WasmSymbolType
  | FUNCTION_IMPORT
  | FUNCTION_EXPORT
  | GLOBAL_IMPORT
  | GLOBAL_EXPORT
  | DEBUG_FUNCTION_NAME
  deriving Repr, DecidableEq

/-- The raw wasm symbol record of the external reader: name, type and the
weak flag consulted by `Symbol::isWeak` (Symbols.cpp:87-89). -/
structure WasmSymbol where
  name : String
  type : WasmSymbolType
  weak : Bool
  deriving Repr, DecidableEq

/-- A symbol-table `Symbol`: name, kind, owning input file (by id), raw wasm
symbol, and the archive cookie set by `setArchiveSymbol`. -/
structure Symbol where
  name : String
  symbolKind : SymbolKind
  file : Option Nat
  sym : Option WasmSymbol
  archiveCookie : Option Nat
  deriving Repr, DecidableEq

/-- Modelled from the spec: `Symbol::isDefined` (Symbols.h, not under src/)
holds for the two Defined kinds of §3. -/
def Symbol.isDefined (s : Symbol) : Bool :=
  s.symbolKind = .DefinedFunctionKind || s.symbolKind = .DefinedGlobalKind

/-- Modelled from the spec: `Symbol::isUndefined` (Symbols.h, not under
src/) holds for the two Undefined kinds of §3. -/
def Symbol.isUndefined (s : Symbol) : Bool :=
  s.symbolKind = .UndefinedFunctionKind || s.symbolKind = .UndefinedGlobalKind

/-- Modelled from the spec: `Symbol::isLazy` (Symbols.h, not under src/). -/
def Symbol.isLazy (s : Symbol) : Bool :=
  s.symbolKind = .LazyKind

/-- Modelled from the spec: `Symbol::isFunction` (Symbols.h, not under
src/) holds for the two function kinds (§3 family). -/
def Symbol.isFunction (s : Symbol) : Bool :=
  s.symbolKind = .DefinedFunctionKind || s.symbolKind = .UndefinedFunctionKind

/-- `Symbol::isWeak` (Symbols.cpp:87-89) reads the raw wasm symbol's weak
flag (`false` stands in for the null dereference the C++ would perform on a
synthetic symbol without a raw record). -/
def Symbol.isWeakSym (s : Symbol) : Bool :=
  match s.sym with
  | some w => w.weak
  | none => false

/-- `Symbol::update` (Symbols.cpp:81-85): overwrite kind, file and raw
symbol (the C++ defaults file and raw symbol to null when omitted). -/
def Symbol.updateWith (s : Symbol) (k : SymbolKind) (f : Option Nat)
    (w : Option WasmSymbol) : Symbol :=
  { s with symbolKind := k, file := f, sym := w }

/-- The insertion-ordered symbol table. -/
abbrev SymTable := List Symbol

/-- `SymbolTable::find` by name. -/
def find (tbl : SymTable) (name : String) : Option Symbol :=
  List.find? (fun s => s.name == name) tbl

/-- Mutation of the (unique) symbol of a given name in place. -/
def updateSym (tbl : SymTable) (name : String) (f : Symbol → Symbol) : SymTable :=
  tbl.map (fun s => if s.name == name then f s else s)

/-- Observable side effects of the resolution operations: archive member
loads (`ArchiveFile::addMember`) and reported errors. -/
inductive LinkEvent
  | loadArchiveMember (file : Option Nat) (cookie : Option Nat)
  | errorDuplicateSymbol (name : String)
  | errorTypeMismatch (name : String)
  deriving Repr, DecidableEq

/-- Result of one symbol-table operation: the new table, the emitted events
and whether `fatal` aborted the link. -/
structure SymResult where
  table : SymTable
  events : List LinkEvent
  fatalled : Bool

/-- `checkSymbolTypes` (SymbolTable.cpp:85-96): a no-op when the existing
symbol is Lazy; otherwise errors and `fatal`s when the function/global
family of the new symbol differs from the existing one. -/
def checkSymbolTypes (existing : Symbol) (newSym : WasmSymbol) :
    List LinkEvent × Bool :=
  if existing.isLazy then ([], false)
  else
    let newIsFunction :=
      newSym.type = .FUNCTION_EXPORT || newSym.type = .FUNCTION_IMPORT
    if existing.isFunction ≠ newIsFunction then
      ([.errorTypeMismatch newSym.name], true)
    else ([], false)

/-- Kind chosen by `addDefined` (SymbolTable.cpp:117-119). -/
def kindOfDefined (w : WasmSymbol) : SymbolKind :=
  if w.type = .GLOBAL_EXPORT then .DefinedGlobalKind else .DefinedFunctionKind

/-- Kind chosen by `addUndefined` (SymbolTable.cpp:166-168). -/
def kindOfUndefined (w : WasmSymbol) : SymbolKind :=
  if w.type = .GLOBAL_IMPORT then .UndefinedGlobalKind else .UndefinedFunctionKind

/-- `SymbolTable::addDefined` (SymbolTable.cpp:113-146). -/
def addDefined (F : Nat) (wsym : WasmSymbol) (tbl : SymTable) : SymResult :=
  match find tbl wsym.name with
  | none =>
    { table := tbl ++ [{ name := wsym.name, symbolKind := kindOfDefined wsym,
                         file := some F, sym := some wsym, archiveCookie := none }]
      events := []
      fatalled := false }
  | some S =>
    if ¬ S.isDefined then
      let c := checkSymbolTypes S wsym
      if c.2 then { table := tbl, events := c.1, fatalled := true }
      else
        { table := updateSym tbl wsym.name
            (fun s => s.updateWith (kindOfDefined wsym) (some F) (some wsym))
          events := c.1
          fatalled := false }
    else if wsym.weak then
      { table := tbl, events := [], fatalled := false }
    else if S.isWeakSym then
      { table := updateSym tbl wsym.name
          (fun s => s.updateWith (kindOfDefined wsym) (some F) (some wsym))
        events := []
        fatalled := false }
    else
      { table := tbl, events := [.errorDuplicateSymbol wsym.name], fatalled := false }

/-- `SymbolTable::addUndefined` (SymbolTable.cpp:162-183). -/
def addUndefined (F : Nat) (wsym : WasmSymbol) (tbl : SymTable) : SymResult :=
  match find tbl wsym.name with
  | none =>
    { table := tbl ++ [{ name := wsym.name, symbolKind := kindOfUndefined wsym,
                         file := some F, sym := some wsym, archiveCookie := none }]
      events := []
      fatalled := false }
  | some S =>
    if S.isLazy then
      { table := tbl, events := [.loadArchiveMember S.file S.archiveCookie]
        fatalled := false }
    else if S.isDefined then
      let c := checkSymbolTypes S wsym
      { table := tbl, events := c.1, fatalled := c.2 }
    else
      { table := tbl, events := [], fatalled := false }

/-- `SymbolTable::addLazy` (SymbolTable.cpp:185-202). -/
def addLazy (F : Nat) (cookie : Nat) (name : String) (tbl : SymTable) : SymResult :=
  match find tbl name with
  | none =>
    { table := tbl ++ [{ name := name, symbolKind := .LazyKind, file := some F,
                         sym := none, archiveCookie := some cookie }]
      events := []
      fatalled := false }
  | some S =>
    if S.isUndefined then
      { table := tbl, events := [.loadArchiveMember (some F) (some cookie)]
        fatalled := false }
    else
      { table := tbl, events := [], fatalled := false }

/-- `SymbolTable::addDefinedGlobal` (SymbolTable.cpp:98-111). -/
def addDefinedGlobal (name : String) (tbl : SymTable) : SymResult :=
  match find tbl name with
  | none =>
    { table := tbl ++ [{ name := name, symbolKind := .DefinedGlobalKind,
                         file := none, sym := none, archiveCookie := none }]
      events := []
      fatalled := false }
  | some S =>
    if ¬ S.isFunction then
      { table := tbl, events := [.errorTypeMismatch name], fatalled := false }
    else
      { table := tbl, events := [], fatalled := false }

/-- `SymbolTable::addUndefinedFunction` (SymbolTable.cpp:148-160). -/
def addUndefinedFunction (name : String) (tbl : SymTable) : SymResult :=
  match find tbl name with
  | none =>
    { table := tbl ++ [{ name := name, symbolKind := .UndefinedFunctionKind,
                         file := none, sym := none, archiveCookie := none }]
      events := []
      fatalled := false }
  | some S =>
    if ¬ S.isFunction then
      { table := tbl, events := [.errorTypeMismatch name], fatalled := false }
    else
      { table := tbl, events := [], fatalled := false }

/-- C3: when `addDefined` inserts a definition for a name that already has a
Defined symbol of the same family, (a) a weak new definition leaves the
existing one unchanged, (b) a non-weak new definition replaces a weak
existing one without error, (c) two non-weak definitions produce a
`duplicate symbol` error with the existing symbol kept; hence when both are
weak the first definition wins. -/
theorem claim_C3_addDefined_resolution (tbl : SymTable) (F : Nat)
    (wsym : WasmSymbol) (S : Symbol)
    (hfind : find tbl wsym.name = some S)
    (hdef : S.isDefined = true)
    (_hfam : S.isFunction =
      (wsym.type = WasmSymbolType.FUNCTION_EXPORT ||
       wsym.type = WasmSymbolType.FUNCTION_IMPORT)) :
    (wsym.weak = true →
      addDefined F wsym tbl = ⟨tbl, [], false⟩) ∧
    (wsym.weak = false → S.isWeakSym = true →
      addDefined F wsym tbl =
        ⟨updateSym tbl wsym.name
          (fun s => s.updateWith (kindOfDefined wsym) (some F) (some wsym)),
         [], false⟩) ∧
    (wsym.weak = false → S.isWeakSym = false →
      addDefined F wsym tbl =
        ⟨tbl, [.errorDuplicateSymbol wsym.name], false⟩) ∧
    (wsym.weak = true → S.isWeakSym = true →
      addDefined F wsym tbl = ⟨tbl, [], false⟩) := by
  refine ⟨?_, ?_, ?_, ?_⟩
  · intro hw
    simp [addDefined, hfind, hdef, hw]
  · intro hw hws
    simp [addDefined, hfind, hdef, hw, hws]
  · intro hw hws
    simp [addDefined, hfind, hdef, hw, hws]
  · intro hw _
    simp [addDefined, hfind, hdef, hw]

/-- Existing non-weak defined function symbol used in witnesses. -/
def c3Existing : Symbol :=
  { name := "f", symbolKind := .DefinedFunctionKind, file := some 0,
    sym := some { name := "f", type := .FUNCTION_EXPORT, weak := false },
    archiveCookie := none }

/-- New non-weak definition of the same name. -/
def c3New : WasmSymbol := { name := "f", type := .FUNCTION_EXPORT, weak := false }

theorem claim_C3_witness :
    (find [c3Existing] c3New.name = some c3Existing ∧
      c3Existing.isDefined = true ∧
      c3Existing.isFunction =
        (c3New.type = WasmSymbolType.FUNCTION_EXPORT ||
         c3New.type = WasmSymbolType.FUNCTION_IMPORT)) ∧
    addDefined 1 c3New [c3Existing] =
      ⟨[c3Existing], [.errorDuplicateSymbol "f"], false⟩ :=
  ⟨⟨by decide, by decide, by decide⟩,
   (claim_C3_addDefined_resolution [c3Existing] 1 c3New c3Existing
      (by decide) (by decide) (by decide)).2.2.1 (by decide) (by decide)⟩

/-- Lazy entry (owned by archive 0, cookie 7) used for C5. -/
def lazyF : Symbol :=
  { name := "f", symbolKind := .LazyKind, file := some 0, sym := none,
    archiveCookie := some 7 }

/-- Non-weak function definition of the lazily-known name. -/
def defF : WasmSymbol := { name := "f", type := .FUNCTION_EXPORT, weak := false }

/-- C5 counterexample: `addDefined` on a name whose entry is Lazy emits no
archive-member load — it simply overwrites the entry in place with the new
definition, contradicting the claim that the archive is asked to load the
member named by the lazy entry's cookie. -/
theorem claim_C5_counterexample :
    find [lazyF] "f" = some lazyF ∧
    lazyF.symbolKind = .LazyKind ∧
    (addDefined 1 defF [lazyF]).events = [] ∧
    (addDefined 1 defF [lazyF]).table =
      [{ name := "f", symbolKind := .DefinedFunctionKind, file := some 1,
         sym := some defF, archiveCookie := some 7 }] := by
  decide

/-- C5 (amended): when `addDefined` meets a name whose existing entry is
Lazy, no archive member is loaded and no error is reported
(`checkSymbolTypes` is a no-op for Lazy); the lazy entry is overwritten in
place with the new Defined kind, file and raw symbol.  The archive pull-in
of the original claim happens only in `addUndefined` (and in `addLazy` when
it meets an Undefined entry). -/
theorem claim_C5_amended_lazy_overwrite (tbl : SymTable) (F : Nat)
    (wsym : WasmSymbol) (S : Symbol)
    (hfind : find tbl wsym.name = some S)
    (hlazy : S.symbolKind = .LazyKind) :
    addDefined F wsym tbl =
      ⟨updateSym tbl wsym.name
        (fun s => s.updateWith (kindOfDefined wsym) (some F) (some wsym)),
       [], false⟩ := by
  simp [addDefined, hfind, Symbol.isDefined, hlazy, checkSymbolTypes, Symbol.isLazy]

theorem claim_C5_witness :
    (find [lazyF] defF.name = some lazyF ∧ lazyF.symbolKind = .LazyKind) ∧
    addDefined 1 defF [lazyF] =
      ⟨updateSym [lazyF] defF.name
        (fun s => s.updateWith (kindOfDefined defF) (some 1) (some defF)),
       [], false⟩ :=
  ⟨⟨by decide, by decide⟩,
   claim_C5_amended_lazy_overwrite [lazyF] 1 defF lazyF (by decide) (by decide)⟩

/-- Existing defined global symbol (same family as `addDefinedGlobal`'s
request) used for C7. -/
def c7Global : Symbol :=
  { name := "g", symbolKind := .DefinedGlobalKind, file := some 0, sym := none,
    archiveCookie := none }

/-- Existing defined function symbol (mismatched family) used for C7. -/
def c7Function : Symbol :=
  { name := "h", symbolKind := .DefinedFunctionKind, file := some 0, sym := none,
    archiveCookie := none }

/-- C7 (code bug): `addDefinedGlobal` tests `!S->isFunction()` — the check
copied from `addUndefinedFunction` — so it reports `symbol type mismatch`
exactly when the existing symbol is NOT a function: it errors on an existing
symbol of the matching global family and silently accepts one of the
mismatched function family.  `addUndefinedFunction` behaves as the claim
states. -/
theorem claim_C7_addDefinedGlobal_bug :
    (addDefinedGlobal "g" [c7Global]).events = [.errorTypeMismatch "g"] ∧
    (addDefinedGlobal "h" [c7Function]).events = [] ∧
    (addUndefinedFunction "g" [c7Global]).events = [.errorTypeMismatch "g"] ∧
    (addUndefinedFunction "h" [c7Function]).events = [] := by
  decide

/-- C10: `addLazy` on a name whose existing symbol is Defined or already
Lazy leaves the symbol-table entry entirely unchanged and loads no archive
member; only an existing Undefined symbol triggers the load. -/
theorem claim_C10_addLazy_noop (tbl : SymTable) (F cookie : Nat) (name : String)
    (S : Symbol) (hfind : find tbl name = some S)
    (h : S.isDefined = true ∨ S.symbolKind = .LazyKind) :
    addLazy F cookie name tbl = ⟨tbl, [], false⟩ := by
  have hund : S.isUndefined = false := by
    rcases h with h | h <;>
      cases hk : S.symbolKind <;>
        simp_all [Symbol.isDefined, Symbol.isUndefined]
  simp [addLazy, hfind, hund]

theorem claim_C10_witness :
    (find [c3Existing] "f" = some c3Existing ∧
      (c3Existing.isDefined = true ∨ c3Existing.symbolKind = .LazyKind)) ∧
    addLazy 5 9 "f" [c3Existing] = ⟨[c3Existing], [], false⟩ :=
  ⟨⟨by decide, Or.inl (by decide)⟩,
   claim_C10_addLazy_noop [c3Existing] 5 9 "f" c3Existing (by decide)
     (Or.inl (by decide))⟩

/-! ## Driver and writer control flow (Driver.cpp:287-302, Writer.cpp:860-888) -/

/-- Outcome of the tail of `LinkerDriver::link`: whether `writeResult` was
reached and the `ErrorCount` at that point. -/
structure DriverOutcome where
  writerInvoked : Bool
  errorCountAtWriter : Nat
  deriving Repr, DecidableEq

/-- Tail of `LinkerDriver::link` (Driver.cpp:287-302): `createFiles` may
report errors and its result is checked (`if (ErrorCount) return`); the
`addFile` loop may report further resolution errors (e.g. duplicate
symbols); `reportRemainingUndefines` is `fatal` (modelled as `none`) when
undefined symbols remain and neither `AllowUndefined` nor `Relocatable` is
set; then `writeResult` is invoked with no further `ErrorCount` check. -/
def linkTail (errCreateFiles errResolution : Nat) (undefinesRemain : Bool)
    (allowUndefined relocatable : Bool) : Option DriverOutcome :=
  if errCreateFiles > 0 then some ⟨false, errCreateFiles⟩
  else
    let ec := errCreateFiles + errResolution
    if !allowUndefined && !relocatable && undefinesRemain then none
    else some ⟨true, ec⟩

/-- Which steps of `Writer::run` executed. -/
structure WriterTrace where
  phasesComputed : Bool
  openFileRan : Bool
  headerWritten : Bool
  sectionsWritten : Bool
  deriving Repr, DecidableEq

/-- `Writer::run` (Writer.cpp:860-888): the four computation phases
(`calculateImports`, `calculateOffsets`, `assignSymbolIndexes`,
`layoutMemory`) and `openFile` run unconditionally; `ErrorCount` is
consulted only after `openFile`, after `writeHeader` and after
`writeSections`, returning early when it is non-zero.  `ecIn` is the error
count on entry, `errOpen`/`errHeader`/`errSections` the errors reported by
the respective steps.  Nothing removes the opened output file on an early
return. -/
def writerRun (ecIn errOpen errHeader errSections : Nat) : WriterTrace × Nat :=
  if ecIn + errOpen > 0 then
    (⟨true, true, false, false⟩, ecIn + errOpen)
  else if ecIn + errOpen + errHeader > 0 then
    (⟨true, true, true, false⟩, ecIn + errOpen + errHeader)
  else
    (⟨true, true, true, true⟩, ecIn + errOpen + errHeader + errSections)

/-- C6 counterexample: a resolution error (for example a duplicate symbol)
reported while the input files are added to the symbol table leaves
`ErrorCount = 1 > 0`, yet the driver still invokes the writer — there is no
`ErrorCount` gate between the `addFile` loop and `writeResult`. -/
theorem claim_C6_counterexample :
    linkTail 0 1 false false false = some ⟨true, 1⟩ ∧
    (⟨true, 1⟩ : DriverOutcome).errorCountAtWriter > 0 ∧
    (⟨true, 1⟩ : DriverOutcome).writerInvoked = true := by
  refine ⟨?_, ?_, ?_⟩ <;> decide

/-- C6 (amended): the only pre-writer `ErrorCount` gate is the one after
`createFiles`, so the writer is invoked exactly when `createFiles` reported
no errors (resolution errors after file loading do not prevent it); inside
the writer, the computation phases and `openFile` always run, and once
`ErrorCount > 0` at the check after `openFile` (resp. after `writeHeader`)
the remaining emission steps are skipped while the opened partial output
file is left on disk. -/
theorem claim_C6_amended_error_gating (errCreateFiles errResolution : Nat)
    (undefinesRemain allowUndefined relocatable : Bool)
    (ecIn errOpen errHeader errSections : Nat) :
    (∀ o, linkTail errCreateFiles errResolution undefinesRemain
        allowUndefined relocatable = some o →
      o.writerInvoked = decide (errCreateFiles = 0)) ∧
    (linkTail 0 errResolution false allowUndefined relocatable =
      some ⟨true, errResolution⟩) ∧
    (writerRun ecIn errOpen errHeader errSections).1.phasesComputed = true ∧
    (writerRun ecIn errOpen errHeader errSections).1.openFileRan = true ∧
    (0 < ecIn + errOpen →
      writerRun ecIn errOpen errHeader errSections =
        (⟨true, true, false, false⟩, ecIn + errOpen)) ∧
    (ecIn + errOpen = 0 → 0 < errHeader →
      writerRun ecIn errOpen errHeader errSections =
        (⟨true, true, true, false⟩, errHeader)) := by
  refine ⟨?_, ?_, ?_, ?_, ?_, ?_⟩
  · intro o ho
    unfold linkTail at ho
    by_cases h : errCreateFiles > 0
    · rw [if_pos h] at ho
      cases ho
      have hne : errCreateFiles ≠ 0 := by omega
      simp [hne]
    · rw [if_neg h] at ho
      have h0 : errCreateFiles = 0 := by omega
      subst h0
      split at ho
      · exact absurd ho (by simp)
      · cases ho
        simp
  · simp [linkTail]
  · unfold writerRun
    split
    · rfl
    · split <;> rfl
  · unfold writerRun
    split
    · rfl
    · split <;> rfl
  · intro hpos
    unfold writerRun
    rw [if_pos hpos]
  · intro hz hh
    unfold writerRun
    rw [if_neg (by omega), if_pos (by omega)]
    have he : ecIn + errOpen + errHeader = errHeader := by omega
    rw [he]

theorem claim_C6_witness :
    (0 < 0 + 1 ∧ (0 + 1 = 0 → False)) ∧
    writerRun 0 1 0 0 = (⟨true, true, false, false⟩, 0 + 1) :=
  ⟨⟨by decide, by decide⟩,
   (claim_C6_amended_error_gating 0 0 false false false 0 1 0 0).2.2.2.2.1
     (by decide)⟩

/-! ## Name section (`Writer::writeNameSection`, Writer.cpp:653-709)

The walk consumes, per symbol reference of each object file: its wasm
symbol type, `isResolvedFunctionImport`, `isImportedFunction`, and the
symbol name; the symbol-table side is the presence of the name
(`Symtab->find`) plus the per-symbol `WrittenToSymtab` flag, represented as
the finite set of names whose flag is set (all flags start `false`). -/

/-- One symbol reference as consumed by `writeNameSection`. -/
structure NameRef where
  type : WasmSymbolType
  resolvedImport : Bool
  importedFunc : Bool
  name : String
  deriving Repr, DecidableEq

/-- First pass (Writer.cpp:654-672): count eligible entries, deduplicating
found symbols by setting their `WrittenToSymtab` flag. -/
def namePass1 (h : String → Bool) :
    List NameRef → Finset String → Nat → Finset String × Nat
  | [], f, c => (f, c)
  | r :: rest, f, c =>
    if r.type ≠ WasmSymbolType.DEBUG_FUNCTION_NAME then namePass1 h rest f c
    else if r.resolvedImport then namePass1 h rest f c
    else if h r.name then
      if r.name ∈ f then namePass1 h rest f c
      else namePass1 h rest (insert r.name f) (c + 1)
    else namePass1 h rest f (c + 1)

/-- One sweep of the second pass (Writer.cpp:681-706): emit the entries
whose `isImportedFunction` matches `importedNames`, clearing the
`WrittenToSymtab` flag of found symbols. -/
def namePass2Sweep (h : String → Bool) (importedNames : Bool) :
    List NameRef → Finset String → Nat → Finset String × Nat
  | [], f, e => (f, e)
  | r :: rest, f, e =>
    if r.importedFunc ≠ importedNames then namePass2Sweep h importedNames rest f e
    else if r.type ≠ WasmSymbolType.DEBUG_FUNCTION_NAME then
      namePass2Sweep h importedNames rest f e
    else if r.resolvedImport then namePass2Sweep h importedNames rest f e
    else if h r.name then
      if r.name ∈ f then namePass2Sweep h importedNames rest (f.erase r.name) (e + 1)
      else namePass2Sweep h importedNames rest f e
    else namePass2Sweep h importedNames rest f (e + 1)

/-- `Writer::writeNameSection`: the counting pass from all-clear flags, then
the imports-first and locals-second sweeps.  Returns the declared
`FunctionNameCount`, the number of emitted (index, name) pairs, and the
final flag set. -/
def writeNameSection (h : String → Bool) (refs : List NameRef) :
    Nat × Nat × Finset String :=
  let p1 := namePass1 h refs ∅ 0
  let s1 := namePass2Sweep h true refs p1.1 0
  let s2 := namePass2Sweep h false refs s1.1 s1.2
  (p1.2, s2.2, s2.1)

/-- Eligibility shared by both passes: a `DEBUG_FUNCTION_NAME` symbol that
is not a resolved function import. -/
def nameEligible (r : NameRef) : Bool :=
  (r.type == WasmSymbolType.DEBUG_FUNCTION_NAME) && !r.resolvedImport

/-- The names of eligible references found in the symbol table, filtered by
`p`. -/
def namesOf (h : String → Bool) (p : NameRef → Bool) (l : List NameRef) :
    Finset String :=
  ((l.filter (fun r => nameEligible r && p r && h r.name)).map
    (fun r => r.name)).toFinset

/-- The number of eligible references not found in the symbol table,
filtered by `p`. -/
def nonesOf (h : String → Bool) (p : NameRef → Bool) (l : List NameRef) : Nat :=
  (l.filter (fun r => nameEligible r && p r && !h r.name)).length

theorem namePass1_spec (h : String → Bool) (l : List NameRef)
    (f : Finset String) (c : Nat) :
    (namePass1 h l f c).1 = f ∪ namesOf h (fun _ => true) l ∧
    (namePass1 h l f c).2 + f.card =
      c + nonesOf h (fun _ => true) l + (f ∪ namesOf h (fun _ => true) l).card := by
  induction l generalizing f c with
  | nil => simp [namePass1, namesOf, nonesOf]
  | cons r rest ih =>
    by_cases ht : r.type = WasmSymbolType.DEBUG_FUNCTION_NAME
    · by_cases hri : r.resolvedImport
      · have helig : nameEligible r = false := by
          simp [nameEligible, hri]
        have hstep : namePass1 h (r :: rest) f c = namePass1 h rest f c := by
          simp [namePass1, ht, hri]
        rw [hstep]
        simpa [namesOf, nonesOf, helig] using ih f c
      · have helig : nameEligible r = true := by
          simp [nameEligible, ht, hri]
        by_cases hh : h r.name
        · have hnames : namesOf h (fun _ => true) (r :: rest) =
              insert r.name (namesOf h (fun _ => true) rest) := by
            simp [namesOf, helig, hh]
          have hnones : nonesOf h (fun _ => true) (r :: rest) =
              nonesOf h (fun _ => true) rest := by
            simp [nonesOf, helig, hh]
          by_cases hf : r.name ∈ f
          · have hstep : namePass1 h (r :: rest) f c = namePass1 h rest f c := by
              simp [namePass1, ht, hri, hh, hf]
            have hset : f ∪ insert r.name (namesOf h (fun _ => true) rest) =
                f ∪ namesOf h (fun _ => true) rest := by
              rw [Finset.union_insert,
                Finset.insert_eq_self.mpr (Finset.mem_union_left _ hf)]
            rw [hstep, hnames, hnones, hset]
            exact ih f c
          · have hstep : namePass1 h (r :: rest) f c =
                namePass1 h rest (insert r.name f) (c + 1) := by
              simp [namePass1, ht, hri, hh, hf]
            have hset : insert r.name f ∪ namesOf h (fun _ => true) rest =
                f ∪ insert r.name (namesOf h (fun _ => true) rest) := by
              rw [Finset.insert_union, Finset.union_insert]
            have hcard : (insert r.name f).card = f.card + 1 :=
              Finset.card_insert_of_not_mem hf
            obtain ⟨ih1, ih2⟩ := ih (insert r.name f) (c + 1)
            rw [hstep, hnames, hnones]
            constructor
            · rw [ih1, hset]
            · rw [hset] at ih2
              omega
        · have hnames : namesOf h (fun _ => true) (r :: rest) =
              namesOf h (fun _ => true) rest := by
            simp [namesOf, helig, hh]
          have hnones : nonesOf h (fun _ => true) (r :: rest) =
              nonesOf h (fun _ => true) rest + 1 := by
            simp [nonesOf, helig, hh]
          have hstep : namePass1 h (r :: rest) f c =
              namePass1 h rest f (c + 1) := by
            simp [namePass1, ht, hri, hh]
          obtain ⟨ih1, ih2⟩ := ih f (c + 1)
          rw [hstep, hnames, hnones]
          exact ⟨ih1, by omega⟩
    · have helig : nameEligible r = false := by
        simp [nameEligible, ht]
      have hstep : namePass1 h (r :: rest) f c = namePass1 h rest f c := by
        simp [namePass1, ht]
      rw [hstep]
      simpa [namesOf, nonesOf, helig] using ih f c

theorem namePass2Sweep_spec (h : String → Bool) (b : Bool) (l : List NameRef)
    (f : Finset String) (e : Nat) :
    (namePass2Sweep h b l f e).1 =
      f \ namesOf h (fun r => r.importedFunc == b) l ∧
    (namePass2Sweep h b l f e).2 =
      e + nonesOf h (fun r => r.importedFunc == b) l +
        (f ∩ namesOf h (fun r => r.importedFunc == b) l).card := by
  induction l generalizing f e with
  | nil => simp [namePass2Sweep, namesOf, nonesOf]
  | cons r rest ih =>
    by_cases hb : r.importedFunc = b
    · by_cases ht : r.type = WasmSymbolType.DEBUG_FUNCTION_NAME
      · by_cases hri : r.resolvedImport
        · have helig : nameEligible r = false := by
            simp [nameEligible, hri]
          have hstep : namePass2Sweep h b (r :: rest) f e =
              namePass2Sweep h b rest f e := by
            simp [namePass2Sweep, hb, ht, hri]
          rw [hstep]
          simpa [namesOf, nonesOf, helig] using ih f e
        · have helig : nameEligible r = true := by
            simp [nameEligible, ht, hri]
          by_cases hh : h r.name
          · have hnames : namesOf h (fun r => r.importedFunc == b) (r :: rest) =
                insert r.name (namesOf h (fun r => r.importedFunc == b) rest) := by
              simp [namesOf, helig, hh, hb]
            have hnones : nonesOf h (fun r => r.importedFunc == b) (r :: rest) =
                nonesOf h (fun r => r.importedFunc == b) rest := by
              simp [nonesOf, helig, hh]
            by_cases hf : r.name ∈ f
            · have hstep : namePass2Sweep h b (r :: rest) f e =
                  namePass2Sweep h b rest (f.erase r.name) (e + 1) := by
                simp [namePass2Sweep, hb, ht, hri, hh, hf]
              obtain ⟨ih1, ih2⟩ := ih (f.erase r.name) (e + 1)
              rw [hstep, hnames, hnones]
              constructor
              · rw [ih1]
                ext x
                by_cases hxn : x = r.name
                · subst hxn
                  simp
                · simp [hxn]
              · rw [ih2, Finset.erase_inter]
                by_cases hA : r.name ∈ namesOf h (fun r => r.importedFunc == b) rest
                · have hmem : r.name ∈ f ∩ namesOf h (fun r => r.importedFunc == b) rest :=
                    Finset.mem_inter.mpr ⟨hf, hA⟩
                  have hcpos : 1 ≤ (f ∩ namesOf h (fun r => r.importedFunc == b) rest).card :=
                    Finset.card_pos.mpr ⟨r.name, hmem⟩
                  have hce := Finset.card_erase_of_mem hmem
                  have hins : insert r.name
                      (namesOf h (fun r => r.importedFunc == b) rest) =
                      namesOf h (fun r => r.importedFunc == b) rest :=
                    Finset.insert_eq_self.mpr hA
                  rw [hins, hce]
                  omega
                · have herase : (f ∩ namesOf h (fun r => r.importedFunc == b) rest).erase
                      r.name = f ∩ namesOf h (fun r => r.importedFunc == b) rest := by
                    apply Finset.erase_eq_of_not_mem
                    simp [hA]
                  have hins : f ∩ insert r.name
                      (namesOf h (fun r => r.importedFunc == b) rest) =
                      insert r.name (f ∩ namesOf h (fun r => r.importedFunc == b) rest) := by
                    ext x
                    by_cases hxn : x = r.name
                    · subst hxn
                      simp [hf]
                    · simp [hxn]
                  have hcins : (insert r.name
                      (f ∩ namesOf h (fun r => r.importedFunc == b) rest)).card =
                      (f ∩ namesOf h (fun r => r.importedFunc == b) rest).card + 1 := by
                    apply Finset.card_insert_of_not_mem
                    simp [hA]
                  rw [herase, hins, hcins]
                  omega
            · have hstep : namePass2Sweep h b (r :: rest) f e =
                  namePass2Sweep h b rest f e := by
                simp [namePass2Sweep, hb, ht, hri, hh, hf]
              obtain ⟨ih1, ih2⟩ := ih f e
              rw [hstep, hnames, hnones]
              constructor
              · rw [ih1]
                ext x
                by_cases hxn : x = r.name
                · subst hxn
                  simp [hf]
                · simp [hxn]
              · rw [ih2]
                have hins : f ∩ insert r.name
                    (namesOf h (fun r => r.importedFunc == b) rest) =
                    f ∩ namesOf h (fun r => r.importedFunc == b) rest := by
                  ext x
                  by_cases hxn : x = r.name
                  · subst hxn
                    simp [hf]
                  · simp [hxn]
                rw [hins]
          · have hnames : namesOf h (fun r => r.importedFunc == b) (r :: rest) =
                namesOf h (fun r => r.importedFunc == b) rest := by
              simp [namesOf, helig, hh]
            have hnones : nonesOf h (fun r => r.importedFunc == b) (r :: rest) =
                nonesOf h (fun r => r.importedFunc == b) rest + 1 := by
              simp [nonesOf, helig, hh, hb]
            have hstep : namePass2Sweep h b (r :: rest) f e =
                namePass2Sweep h b rest f (e + 1) := by
              simp [namePass2Sweep, hb, ht, hri, hh]
            obtain ⟨ih1, ih2⟩ := ih f (e + 1)
            rw [hstep, hnames, hnones]
            exact ⟨ih1, by omega⟩
      · have helig : nameEligible r = false := by
          simp [nameEligible, ht]
        have hstep : namePass2Sweep h b (r :: rest) f e =
            namePass2Sweep h b rest f e := by
          simp [namePass2Sweep, hb, ht]
        rw [hstep]
        simpa [namesOf, nonesOf, helig] using ih f e
    · have hp : (r.importedFunc == b) = false := by
        simp [hb]
      have hstep : namePass2Sweep h b (r :: rest) f e =
          namePass2Sweep h b rest f e := by
        simp [namePass2Sweep, hb]
      rw [hstep]
      simpa [namesOf, nonesOf, hp] using ih f e

theorem namesOf_split (h : String → Bool) (l : List NameRef) :
    namesOf h (fun r => r.importedFunc == true) l ∪
      namesOf h (fun r => r.importedFunc == false) l =
      namesOf h (fun _ => true) l := by
  ext x
  simp only [Finset.mem_union, namesOf, List.mem_toFinset, List.mem_map,
    List.mem_filter, Bool.and_eq_true, Bool.not_eq_true]
  constructor
  · rintro (⟨r, ⟨hrl, hcond⟩, rfl⟩ | ⟨r, ⟨hrl, hcond⟩, rfl⟩) <;>
      exact ⟨r, ⟨hrl, by simp_all⟩, rfl⟩
  · rintro ⟨r, ⟨hrl, hcond⟩, rfl⟩
    cases hri : r.importedFunc
    · right
      exact ⟨r, ⟨hrl, by simp_all⟩, rfl⟩
    · left
      exact ⟨r, ⟨hrl, by simp_all⟩, rfl⟩

theorem nonesOf_split (h : String → Bool) (l : List NameRef) :
    nonesOf h (fun r => r.importedFunc == true) l +
      nonesOf h (fun r => r.importedFunc == false) l =
      nonesOf h (fun _ => true) l := by
  induction l with
  | nil => simp [nonesOf]
  | cons r rest ih =>
    by_cases he : nameEligible r = true <;>
      by_cases hh : h r.name <;>
        cases hri : r.importedFunc <;>
          simp only [nonesOf, List.filter_cons, he, hh, hri] at ih ⊢ <;>
            simp_all [nonesOf] <;> omega

/-- C9: `writeNameSection` emits exactly as many (function index, name)
pairs as the `FunctionNameCount` it declares — every entry counted in the
first pass is emitted exactly once across the imports-first/locals-second
second pass — and after it returns every symbol's `WrittenToSymtab` flag is
false again (the flag set starts empty, the first pass fills it, the second
pass drains it). -/
theorem claim_C9_writeNameSection (h : String → Bool) (refs : List NameRef) :
    (writeNameSection h refs).2.1 = (writeNameSection h refs).1 ∧
    (writeNameSection h refs).2.2 = ∅ := by
  have hsplitN := namesOf_split h refs
  have hsplitC := nonesOf_split h refs
  obtain ⟨hp1f, hp1c⟩ := namePass1_spec h refs ∅ 0
  obtain ⟨hs1f, hs1c⟩ :=
    namePass2Sweep_spec h true refs (namePass1 h refs ∅ 0).1 0
  obtain ⟨hs2f, hs2c⟩ :=
    namePass2Sweep_spec h false refs
      (namePass2Sweep h true refs (namePass1 h refs ∅ 0).1 0).1
      (namePass2Sweep h true refs (namePass1 h refs ∅ 0).1 0).2
  rw [Finset.empty_union] at hp1f
  simp only [Finset.card_empty, Finset.empty_union, Nat.add_zero, Nat.zero_add]
    at hp1c
  have hTsubA : namesOf h (fun r => r.importedFunc == true) refs ⊆
      namesOf h (fun _ => true) refs := by
    rw [← hsplitN]
    exact Finset.subset_union_left
  have hFsubA : namesOf h (fun r => r.importedFunc == false) refs ⊆
      namesOf h (fun _ => true) refs := by
    rw [← hsplitN]
    exact Finset.subset_union_right
  rw [hp1f] at hs1f hs1c hs2f hs2c
  rw [Finset.inter_eq_right.mpr hTsubA] at hs1c
  rw [hs1f] at hs2f hs2c
  rw [hs1c] at hs2c
  have hset : (namesOf h (fun _ => true) refs \
        namesOf h (fun r => r.importedFunc == true) refs) ∩
      namesOf h (fun r => r.importedFunc == false) refs =
      namesOf h (fun r => r.importedFunc == false) refs \
        namesOf h (fun r => r.importedFunc == true) refs := by
    ext x
    rw [Finset.mem_inter, Finset.mem_sdiff, Finset.mem_sdiff]
    constructor
    · rintro ⟨⟨_, hxT⟩, hxF⟩
      exact ⟨hxF, hxT⟩
    · rintro ⟨hxF, hxT⟩
      exact ⟨⟨hFsubA hxF, hxT⟩, hxF⟩
  have hcard : (namesOf h (fun r => r.importedFunc == false) refs \
        namesOf h (fun r => r.importedFunc == true) refs).card +
      (namesOf h (fun r => r.importedFunc == true) refs).card =
      (namesOf h (fun _ => true) refs).card := by
    rw [Finset.card_sdiff_add_card, Finset.union_comm, hsplitN]
  have hdiff : (namesOf h (fun _ => true) refs \
        namesOf h (fun r => r.importedFunc == true) refs) \
      namesOf h (fun r => r.importedFunc == false) refs = ∅ := by
    have hstep : (namesOf h (fun _ => true) refs \
          namesOf h (fun r => r.importedFunc == true) refs) \
        namesOf h (fun r => r.importedFunc == false) refs =
        namesOf h (fun _ => true) refs \
          (namesOf h (fun r => r.importedFunc == true) refs ∪
           namesOf h (fun r => r.importedFunc == false) refs) := by
      ext x
      simp
      tauto
    rw [hstep, hsplitN, Finset.sdiff_self]
  constructor
  · show (namePass2Sweep h false refs
        (namePass2Sweep h true refs (namePass1 h refs ∅ 0).1 0).1
        (namePass2Sweep h true refs (namePass1 h refs ∅ 0).1 0).2).2 =
      (namePass1 h refs ∅ 0).2
    rw [hp1f, hs1f, hs1c, hs2c, hset, hp1c]
    omega
  · show (namePass2Sweep h false refs
        (namePass2Sweep h true refs (namePass1 h refs ∅ 0).1 0).1
        (namePass2Sweep h true refs (namePass1 h refs ∅ 0).1 0).2).1 = ∅
    rw [hp1f, hs1f, hs2f, hdiff]

/-! ## Index-space assignment
(`Writer::calculateImports` / `calculateOffsets` / `assignSymbolIndexes`,
Writer.cpp:761-858; `Symbol::setOutputIndex`, Symbols.cpp:73-79;
`LinkerDriver::addSyntheticGlobal`, Driver.cpp:188-199) -/

/-- A symbol as seen by the index-assignment phases: kind, owning input
file (an index into the object list, `none` for synthetic symbols), the
file-local element index read by `getFunctionIndex`/`getGlobalIndex`
(`Export.Index`), and the output-index slot with its assigned flag
(`some`/`none`). -/
structure WSymbol where
  symbolKind : SymbolKind
  file : Option Nat
  elemIndex : Nat
  outputIndex : Option Nat
  deriving Repr, DecidableEq

/-- Modelled from the spec: `Symbol::isDefined` (Symbols.h, not under
src/). -/
def WSymbol.isDefined (s : WSymbol) : Bool :=
  s.symbolKind = .DefinedFunctionKind || s.symbolKind = .DefinedGlobalKind

/-- Modelled from the spec: `Symbol::isFunction` (Symbols.h, not under
src/). -/
def WSymbol.isFunction (s : WSymbol) : Bool :=
  s.symbolKind = .DefinedFunctionKind || s.symbolKind = .UndefinedFunctionKind

/-- An object file as seen by the index-assignment phases: the ids of the
symbols of `getSymbols()` in order, the section counts, the sizes of its
own import lists, and the per-space offsets filled in by
`calculateOffsets`. -/
structure WObject where
  symRefs : List Nat
  numTypes : Nat
  numFunctions : Nat
  numGlobals : Nat
  numFuncImports : Nat
  numGlobalImports : Nat
  typeIndexOffset : Nat
  funcIndexOffset : Nat
  globalIndexOffset : Nat
  deriving Repr, DecidableEq

/-- The writer's mutable state during phases A and C: the symbols, the
growing `FunctionImports`/`GlobalImports` vectors, and a flag recording
whether any `setOutputIndex` call ever saw an already-assigned slot
(the `assert(!OutputIndexSet)` of Symbols.cpp:74). -/
structure WriterState where
  syms : List WSymbol
  functionImports : List Nat
  globalImports : List Nat
  assertFailed : Bool
  deriving Repr, DecidableEq

/-- `Symbol::setOutputIndex` (Symbols.cpp:73-79): records the index; the
`assert(!OutputIndexSet)` failure is modelled by raising `assertFailed`. -/
def setOutputIndex (st : WriterState) (id : Nat) (idx : Nat) : WriterState :=
  match st.syms[id]? with
  | none => st
  | some s =>
    { st with
      syms := st.syms.set id { s with outputIndex := some idx }
      assertFailed := st.assertFailed || s.outputIndex.isSome }

/-- Body of the `calculateImports` loop (Writer.cpp:828-839): skip symbols
that already have an output index or are defined; give function symbols the
next dense function-import index and the others the next dense
global-import index, appending them to the matching import list. -/
def calcImportsStep (st : WriterState) (id : Nat) : WriterState :=
  match st.syms[id]? with
  | none => st
  | some s =>
    if s.outputIndex.isSome || s.isDefined then st
    else if s.isFunction then
      let st' := setOutputIndex st id st.functionImports.length
      { st' with functionImports := st'.functionImports ++ [id] }
    else
      let st' := setOutputIndex st id st.globalImports.length
      { st' with globalImports := st'.globalImports ++ [id] }

/-- `Writer::calculateImports` (Writer.cpp:826-841): every symbol of every
object, in object-then-symbol order. -/
def calculateImports (objs : List WObject) (st : WriterState) : WriterState :=
  objs.foldl (fun acc o => o.symRefs.foldl calcImportsStep acc) st

/-- The `calculateOffsets` walk (Writer.cpp:764-779) restricted to the
index-space bookkeeping: running totals are `uint32_t`, the offsets are
computed in `size_t` and truncated on the `uint32_t` fields, so the
subtraction `FunctionImports.size() - File->FunctionImports.size()` wraps
modulo `2^64` before the truncation modulo `2^32`. -/
def calcOffsetsGo (relocatable : Bool) (fiLen giLen : Nat) :
    List WObject → Nat → Nat → Nat → List WObject
  | [], _, _, _ => []
  | o :: rest, tt, tf, tg =>
    let o' := { o with
      typeIndexOffset := tt
      funcIndexOffset := (fiLen + 2 ^ 64 - o.numFuncImports + tf) % 2 ^ 32
      globalIndexOffset :=
        if relocatable then (giLen + 2 ^ 64 - o.numGlobalImports + tg) % 2 ^ 32
        else o.globalIndexOffset }
    o' :: calcOffsetsGo relocatable fiLen giLen rest
      ((tt + o.numTypes) % 2 ^ 32) ((tf + o.numFunctions) % 2 ^ 32)
      (if relocatable then (tg + o.numGlobals) % 2 ^ 32 else tg)

/-- `Writer::calculateOffsets` (index-space part): `TotalGlobals` starts at
`Config->SyntheticGlobals.size()` (Writer.cpp:762). -/
def calculateOffsets (relocatable : Bool) (fiLen giLen numSynGlobals : Nat)
    (objs : List WObject) : List WObject :=
  calcOffsetsGo relocatable fiLen giLen objs 0 0 numSynGlobals

/-- Body of the `assignSymbolIndexes` loop (Writer.cpp:845-856): skip
symbols that already have an output index or are not defined; otherwise,
when the symbol's own file is an object, assign
`FunctionIndexOffset + getFunctionIndex()` or
`GlobalIndexOffset + getGlobalIndex()` (uint32 addition). -/
def assignStep (objs : List WObject) (st : WriterState) (id : Nat) : WriterState :=
  match st.syms[id]? with
  | none => st
  | some s =>
    if s.outputIndex.isSome || ¬ s.isDefined then st
    else
      match s.file with
      | none => st
      | some k =>
        match objs[k]? with
        | none => st
        | some o =>
          if s.isFunction then
            setOutputIndex st id ((o.funcIndexOffset + s.elemIndex) % 2 ^ 32)
          else
            setOutputIndex st id ((o.globalIndexOffset + s.elemIndex) % 2 ^ 32)

/-- `Writer::assignSymbolIndexes` (Writer.cpp:843-858). -/
def assignSymbolIndexes (objs : List WObject) (st : WriterState) : WriterState :=
  objs.foldl (fun acc o => o.symRefs.foldl (assignStep objs) acc) st

/-- The index-assigning pipeline of one link invocation: the driver gives
the synthetic stack pointer (symbol `spId`) output index 0
(`Config->SyntheticGlobals.size()` at that point, Driver.cpp:191), then the
writer runs `calculateImports`, `calculateOffsets` and
`assignSymbolIndexes`. -/
def linkIndexAssignment (relocatable : Bool) (numSynGlobals : Nat) (spId : Nat)
    (objs : List WObject) (st0 : WriterState) : WriterState :=
  let st1 := setOutputIndex st0 spId 0
  let st2 := calculateImports objs st1
  let objs' := calculateOffsets relocatable st2.functionImports.length
    st2.globalImports.length numSynGlobals objs
  assignSymbolIndexes objs' st2

theorem setOutputIndex_assertFailed_of_none (st : WriterState) (id idx : Nat)
    (s : WSymbol) (hs : st.syms[id]? = some s) (hnone : s.outputIndex = none) :
    (setOutputIndex st id idx).assertFailed = st.assertFailed := by
  simp [setOutputIndex, hs, hnone]

theorem calcImportsStep_assertFailed (st : WriterState) (id : Nat) :
    (calcImportsStep st id).assertFailed = st.assertFailed := by
  unfold calcImportsStep
  cases hs : st.syms[id]? with
  | none => rfl
  | some s =>
    by_cases hskip : (s.outputIndex.isSome || s.isDefined) = true
    · simp [hskip]
    · have hnone : s.outputIndex = none := by
        cases h : s.outputIndex <;> simp_all
      have hdef : s.isDefined = false := by
        simp only [Bool.or_eq_true] at hskip
        simp_all
      by_cases hf : s.isFunction = true <;>
        simp [hskip, hf, hdef, setOutputIndex, hs, hnone]

theorem assignStep_assertFailed (objs : List WObject) (st : WriterState) (id : Nat) :
    (assignStep objs st id).assertFailed = st.assertFailed := by
  unfold assignStep
  cases hs : st.syms[id]? with
  | none => rfl
  | some s =>
    by_cases hskip : (s.outputIndex.isSome || !s.isDefined) = true
    · simp [hskip]
    · have hnone : s.outputIndex = none := by
        cases h : s.outputIndex <;> simp_all
      cases hfile : s.file with
      | none => simp [hskip, hfile]
      | some k =>
        cases ho : objs[k]? with
        | none => simp [hskip, hfile, ho]
        | some o =>
          have hdef : s.isDefined = true := by
            simp only [Bool.or_eq_true] at hskip
            simp_all
          by_cases hf : s.isFunction = true <;>
            simp [hskip, hfile, ho, hf, hdef, setOutputIndex, hs, hnone]

theorem foldl_calcImportsStep_assertFailed (ids : List Nat) (st : WriterState) :
    (ids.foldl calcImportsStep st).assertFailed = st.assertFailed := by
  induction ids generalizing st with
  | nil => rfl
  | cons id rest ih =>
    rw [List.foldl_cons, ih, calcImportsStep_assertFailed]

theorem calculateImports_assertFailed (objs : List WObject) (st : WriterState) :
    (calculateImports objs st).assertFailed = st.assertFailed := by
  induction objs generalizing st with
  | nil => rfl
  | cons o rest ih =>
    rw [calculateImports, List.foldl_cons, ← calculateImports, ih,
      foldl_calcImportsStep_assertFailed]

theorem foldl_assignStep_assertFailed (objs : List WObject) (ids : List Nat)
    (st : WriterState) :
    (ids.foldl (assignStep objs) st).assertFailed = st.assertFailed := by
  induction ids generalizing st with
  | nil => rfl
  | cons id rest ih =>
    rw [List.foldl_cons, ih, assignStep_assertFailed]

theorem assignSymbolIndexes_assertFailed (objs : List WObject)
    (st : WriterState) :
    (assignSymbolIndexes objs st).assertFailed = st.assertFailed := by
  unfold assignSymbolIndexes
  suffices hgen : ∀ (l : List WObject) (st : WriterState),
      (l.foldl (fun acc o => o.symRefs.foldl (assignStep objs) acc) st).assertFailed =
        st.assertFailed from hgen objs st
  intro l
  induction l with
  | nil => intro st; rfl
  | cons o rest ih =>
    intro st
    rw [List.foldl_cons, ih, foldl_assignStep_assertFailed]

/-- C8: across one link invocation `setOutputIndex` is never invoked on a
symbol whose output index is already set: the driver assigns the synthetic
stack pointer its index once on a table where nothing is assigned yet, and
both `calculateImports` and `assignSymbolIndexes` skip any symbol with
`hasOutputIndex()`, so the `assert(!OutputIndexSet)` holds at every call
(the `assertFailed` flag stays false, and the two phases preserve it from
any state whatsoever). -/
theorem claim_C8_outputIndex_once (relocatable : Bool) (numSynGlobals spId : Nat)
    (objs : List WObject) (st0 : WriterState)
    (hnone : ∀ s ∈ st0.syms, s.outputIndex = none)
    (hflag : st0.assertFailed = false) :
    (∀ st : WriterState, (calculateImports objs st).assertFailed = st.assertFailed) ∧
    (∀ (objs' : List WObject) (st : WriterState),
      (assignSymbolIndexes objs' st).assertFailed = st.assertFailed) ∧
    (linkIndexAssignment relocatable numSynGlobals spId objs st0).assertFailed = false := by
  refine ⟨fun st => calculateImports_assertFailed objs st,
    fun objs' st => assignSymbolIndexes_assertFailed objs' st, ?_⟩
  show (assignSymbolIndexes _ (calculateImports objs (setOutputIndex st0 spId 0))).assertFailed = false
  rw [assignSymbolIndexes_assertFailed, calculateImports_assertFailed]
  cases hs : st0.syms[spId]? with
  | none =>
    simp [setOutputIndex, hs, hflag]
  | some s =>
    rw [setOutputIndex_assertFailed_of_none st0 spId 0 s hs
      (hnone s (List.getElem?_mem hs))]
    exact hflag

theorem claim_C8_witness :
    ((∀ s ∈ [⟨SymbolKind.DefinedGlobalKind, none, 0, none⟩,
        (⟨SymbolKind.UndefinedFunctionKind, some 0, 0, none⟩ : WSymbol)],
        s.outputIndex = none) ∧
      (({ syms := [⟨SymbolKind.DefinedGlobalKind, none, 0, none⟩,
          ⟨SymbolKind.UndefinedFunctionKind, some 0, 0, none⟩],
          functionImports := [], globalImports := [],
          assertFailed := false } : WriterState).assertFailed = false)) ∧
    (linkIndexAssignment false 1 0
      [{ symRefs := [1], numTypes := 1, numFunctions := 0, numGlobals := 0,
         numFuncImports := 1, numGlobalImports := 0, typeIndexOffset := 0,
         funcIndexOffset := 0, globalIndexOffset := 0 }]
      { syms := [⟨SymbolKind.DefinedGlobalKind, none, 0, none⟩,
          ⟨SymbolKind.UndefinedFunctionKind, some 0, 0, none⟩],
        functionImports := [], globalImports := [],
        assertFailed := false }).assertFailed = false :=
  ⟨⟨by decide, by decide⟩,
   (claim_C8_outputIndex_once false 1 0
      [{ symRefs := [1], numTypes := 1, numFunctions := 0, numGlobals := 0,
         numFuncImports := 1, numGlobalImports := 0, typeIndexOffset := 0,
         funcIndexOffset := 0, globalIndexOffset := 0 }]
      { syms := [⟨SymbolKind.DefinedGlobalKind, none, 0, none⟩,
          ⟨SymbolKind.UndefinedFunctionKind, some 0, 0, none⟩],
        functionImports := [], globalImports := [],
        assertFailed := false } (by decide) (by decide)).2.2⟩

/-- Density invariant of the import lists: the `j`-th entry of each list is
a symbol with output index `j`, not defined, of the matching family; and
every non-defined symbol with an assigned index is listed. -/
def ImportInv (st : WriterState) : Prop :=
  (∀ (j id : Nat), st.functionImports[j]? = some id →
    ∃ s : WSymbol, st.syms[id]? = some s ∧
      s.outputIndex = some j ∧ s.isDefined = false ∧ s.isFunction = true) ∧
  (∀ (j id : Nat), st.globalImports[j]? = some id →
    ∃ s : WSymbol, st.syms[id]? = some s ∧
      s.outputIndex = some j ∧ s.isDefined = false ∧ s.isFunction = false) ∧
  (∀ (id : Nat) (s : WSymbol), st.syms[id]? = some s → s.isDefined = false →
    s.outputIndex.isSome = true →
    (s.isFunction = true → id ∈ st.functionImports) ∧
    (s.isFunction = false → id ∈ st.globalImports))

/-- Monotone evolution of the writer state: symbol fields are stable,
assigned output indexes are never changed, import-list membership only
grows. -/
def StMono (st st' : WriterState) : Prop :=
  st'.syms.length = st.syms.length ∧
  (∀ (id : Nat) (s : WSymbol), st.syms[id]? = some s →
    ∃ s' : WSymbol, st'.syms[id]? = some s' ∧
    s'.symbolKind = s.symbolKind ∧ s'.file = s.file ∧ s'.elemIndex = s.elemIndex ∧
    (s.outputIndex.isSome = true → s'.outputIndex = s.outputIndex)) ∧
  (∀ id : Nat, id ∈ st.functionImports → id ∈ st'.functionImports) ∧
  (∀ id : Nat, id ∈ st.globalImports → id ∈ st'.globalImports)

theorem stMono_refl (st : WriterState) : StMono st st :=
  ⟨rfl, fun _ s hs => ⟨s, hs, rfl, rfl, rfl, fun _ => rfl⟩,
   fun _ h => h, fun _ h => h⟩

theorem stMono_trans {a b c : WriterState} (h1 : StMono a b) (h2 : StMono b c) :
    StMono a c := by
  obtain ⟨hl1, hm1, hf1, hg1⟩ := h1
  obtain ⟨hl2, hm2, hf2, hg2⟩ := h2
  refine ⟨hl2.trans hl1, ?_, fun id h => hf2 id (hf1 id h),
    fun id h => hg2 id (hg1 id h)⟩
  intro id s hs
  obtain ⟨s', hs', hk', hfi', he', ho'⟩ := hm1 id s hs
  obtain ⟨s'', hs'', hk'', hfi'', he'', ho''⟩ := hm2 id s' hs'
  refine ⟨s'', hs'', hk''.trans hk', hfi''.trans hfi', he''.trans he', ?_⟩
  intro hsome
  have e1 := ho' hsome
  have e2 := ho'' (by rw [e1]; exact hsome)
  rw [e2, e1]

theorem calcImportsStep_inv (st : WriterState) (id₀ : Nat) (hInv : ImportInv st) :
    ImportInv (calcImportsStep st id₀) ∧ StMono st (calcImportsStep st id₀) ∧
    (∀ s, st.syms[id₀]? = some s → s.isDefined = false →
      ∃ s', (calcImportsStep st id₀).syms[id₀]? = some s' ∧
        s'.outputIndex.isSome = true) := by
  obtain ⟨hI1, hI2, hI3⟩ := hInv
  cases hs : st.syms[id₀]? with
  | none =>
    have hR : calcImportsStep st id₀ = st := by
      unfold calcImportsStep
      rw [hs]
    rw [hR]
    refine ⟨⟨hI1, hI2, hI3⟩, stMono_refl st, ?_⟩
    intro s hs'
    simp [hs] at hs'
  | some s₀ =>
    have hlen : id₀ < st.syms.length := by
      rcases List.getElem?_eq_some.mp hs with ⟨h, _⟩
      exact h
    by_cases hskip : (s₀.outputIndex.isSome || s₀.isDefined) = true
    · have hR : calcImportsStep st id₀ = st := by
        unfold calcImportsStep
        rw [hs]
        simp [hskip]
      rw [hR]
      refine ⟨⟨hI1, hI2, hI3⟩, stMono_refl st, ?_⟩
      intro s hs' hdef
      injection hs' with hss
      subst hss
      refine ⟨s₀, hs, ?_⟩
      rcases Bool.or_eq_true_iff.mp hskip with h | h
      · exact h
      · rw [h] at hdef
        cases hdef
    · have hnone : s₀.outputIndex = none := by
        rcases ho : s₀.outputIndex with _ | v
        · rfl
        · rw [ho] at hskip
          simp at hskip
      have hndef : s₀.isDefined = false := by
        rcases hd : s₀.isDefined
        · rfl
        · rw [hd] at hskip
          simp at hskip
      have hninFI : id₀ ∉ st.functionImports := by
        intro hmem
        obtain ⟨j, hj⟩ := List.mem_iff_getElem?.mp hmem
        obtain ⟨s', hs', hoi, _, _⟩ := hI1 j id₀ hj
        rw [hs] at hs'
        injection hs' with hss
        rw [← hss, hnone] at hoi
        cases hoi
      have hninGI : id₀ ∉ st.globalImports := by
        intro hmem
        obtain ⟨j, hj⟩ := List.mem_iff_getElem?.mp hmem
        obtain ⟨s', hs', hoi, _, _⟩ := hI2 j id₀ hj
        rw [hs] at hs'
        injection hs' with hss
        rw [← hss, hnone] at hoi
        cases hoi
      by_cases hf : s₀.isFunction = true
      · have hR : calcImportsStep st id₀ =
            { syms := st.syms.set id₀
                { s₀ with outputIndex := some st.functionImports.length }
              functionImports := st.functionImports ++ [id₀]
              globalImports := st.globalImports
              assertFailed := st.assertFailed } := by
          unfold calcImportsStep
          rw [hs]
          simp [hskip, hndef, hf, setOutputIndex, hs, hnone]
        rw [hR]
        refine ⟨⟨?_, ?_, ?_⟩, ⟨?_, ?_, ?_, ?_⟩, ?_⟩
        · intro j id hj
          simp only [List.getElem?_append] at hj
          split at hj
          · obtain ⟨s', hs', hoi, hd, hfn⟩ := hI1 j id hj
            have hne : id ≠ id₀ := by
              intro he
              subst he
              exact hninFI (List.mem_iff_getElem?.mpr ⟨j, hj⟩)
            refine ⟨s', ?_, hoi, hd, hfn⟩
            simpa [List.getElem?_set_ne (fun he => hne he.symm)] using hs'
          · rename_i hjlen
            have hjid : j - st.functionImports.length = 0 ∧ id = id₀ := by
              rcases hk : j - st.functionImports.length with _ | k
              · rw [hk] at hj
                simp at hj
                exact ⟨rfl, hj.symm⟩
              · rw [hk] at hj
                simp at hj
            obtain ⟨hj0, hid⟩ := hjid
            subst hid
            have hjeq : j = st.functionImports.length := by omega
            subst hjeq
            refine ⟨{ s₀ with outputIndex := some st.functionImports.length },
              ?_, rfl, ?_, ?_⟩
            · simp [List.getElem?_set_self hlen]
            · simpa [WSymbol.isDefined] using hndef
            · simpa [WSymbol.isFunction] using hf
        · intro j id hj
          obtain ⟨s', hs', hoi, hd, hfn⟩ := hI2 j id hj
          have hne : id ≠ id₀ := by
            intro he
            subst he
            exact hninGI (List.mem_iff_getElem?.mpr ⟨j, hj⟩)
          refine ⟨s', ?_, hoi, hd, hfn⟩
          simpa [List.getElem?_set_ne (fun he => hne he.symm)] using hs'
        · intro id s hsR hdf hsome
          by_cases heq : id = id₀
          · subst heq
            rw [List.getElem?_set_self hlen] at hsR
            injection hsR with hss
            subst hss
            constructor
            · intro _
              exact List.mem_append.mpr (Or.inr (List.mem_singleton.mpr rfl))
            · intro hnf
              have : s₀.isFunction = false := by
                simpa [WSymbol.isFunction] using hnf
              rw [hf] at this
              cases this
          · rw [List.getElem?_set_ne (fun he => heq he.symm)] at hsR
            obtain ⟨hmf, hmg⟩ := hI3 id s hsR hdf hsome
            exact ⟨fun h => List.mem_append.mpr (Or.inl (hmf h)), hmg⟩
        · simp
        · intro id s hsid
          by_cases heq : id = id₀
          · subst heq
            rw [hs] at hsid
            injection hsid with hss
            subst hss
            refine ⟨{ s₀ with outputIndex := some st.functionImports.length },
              by simp [List.getElem?_set_self hlen], rfl, rfl, rfl, ?_⟩
            intro hsome
            rw [hnone] at hsome
            cases hsome
          · exact ⟨s, by simp [List.getElem?_set_ne (fun he => heq he.symm), hsid],
              rfl, rfl, rfl, fun _ => rfl⟩
        · intro id hmem
          exact List.mem_append.mpr (Or.inl hmem)
        · intro id hmem
          exact hmem
        · intro s hsid _
          injection hsid with hss
          subst hss
          exact ⟨{ s₀ with outputIndex := some st.functionImports.length },
            by simp [List.getElem?_set_self hlen], rfl⟩
      · have hR : calcImportsStep st id₀ =
            { syms := st.syms.set id₀
                { s₀ with outputIndex := some st.globalImports.length }
              functionImports := st.functionImports
              globalImports := st.globalImports ++ [id₀]
              assertFailed := st.assertFailed } := by
          unfold calcImportsStep
          rw [hs]
          simp [hskip, hndef, hf, setOutputIndex, hs, hnone]
        have hf' : s₀.isFunction = false := by
          rcases hd : s₀.isFunction
          · rfl
          · exact absurd hd hf
        rw [hR]
        refine ⟨⟨?_, ?_, ?_⟩, ⟨?_, ?_, ?_, ?_⟩, ?_⟩
        · intro j id hj
          obtain ⟨s', hs', hoi, hd, hfn⟩ := hI1 j id hj
          have hne : id ≠ id₀ := by
            intro he
            subst he
            exact hninFI (List.mem_iff_getElem?.mpr ⟨j, hj⟩)
          refine ⟨s', ?_, hoi, hd, hfn⟩
          simpa [List.getElem?_set_ne (fun he => hne he.symm)] using hs'
        · intro j id hj
          simp only [List.getElem?_append] at hj
          split at hj
          · obtain ⟨s', hs', hoi, hd, hfn⟩ := hI2 j id hj
            have hne : id ≠ id₀ := by
              intro he
              subst he
              exact hninGI (List.mem_iff_getElem?.mpr ⟨j, hj⟩)
            refine ⟨s', ?_, hoi, hd, hfn⟩
            simpa [List.getElem?_set_ne (fun he => hne he.symm)] using hs'
          · rename_i hjlen
            have hjid : j - st.globalImports.length = 0 ∧ id = id₀ := by
              rcases hk : j - st.globalImports.length with _ | k
              · rw [hk] at hj
                simp at hj
                exact ⟨rfl, hj.symm⟩
              · rw [hk] at hj
                simp at hj
            obtain ⟨hj0, hid⟩ := hjid
            subst hid
            have hjeq : j = st.globalImports.length := by omega
            subst hjeq
            refine ⟨{ s₀ with outputIndex := some st.globalImports.length },
              ?_, rfl, ?_, ?_⟩
            · simp [List.getElem?_set_self hlen]
            · simpa [WSymbol.isDefined] using hndef
            · simpa [WSymbol.isFunction] using hf'
        · intro id s hsR hdf hsome
          by_cases heq : id = id₀
          · subst heq
            rw [List.getElem?_set_self hlen] at hsR
            injection hsR with hss
            subst hss
            constructor
            · intro hfn
              have : s₀.isFunction = true := by
                simpa [WSymbol.isFunction] using hfn
              rw [hf'] at this
              cases this
            · intro _
              exact List.mem_append.mpr (Or.inr (List.mem_singleton.mpr rfl))
          · rw [List.getElem?_set_ne (fun he => heq he.symm)] at hsR
            obtain ⟨hmf, hmg⟩ := hI3 id s hsR hdf hsome
            exact ⟨hmf, fun h => List.mem_append.mpr (Or.inl (hmg h))⟩
        · simp
        · intro id s hsid
          by_cases heq : id = id₀
          · subst heq
            rw [hs] at hsid
            injection hsid with hss
            subst hss
            refine ⟨{ s₀ with outputIndex := some st.globalImports.length },
              by simp [List.getElem?_set_self hlen], rfl, rfl, rfl, ?_⟩
            intro hsome
            rw [hnone] at hsome
            cases hsome
          · exact ⟨s, by simp [List.getElem?_set_ne (fun he => heq he.symm), hsid],
              rfl, rfl, rfl, fun _ => rfl⟩
        · intro id hmem
          exact hmem
        · intro id hmem
          exact List.mem_append.mpr (Or.inl hmem)
        · intro s hsid _
          injection hsid with hss
          subst hss
          exact ⟨{ s₀ with outputIndex := some st.globalImports.length },
            by simp [List.getElem?_set_self hlen], rfl⟩

theorem isDefined_congr {a b : WSymbol} (h : a.symbolKind = b.symbolKind) :
    a.isDefined = b.isDefined := by
  unfold WSymbol.isDefined
  rw [h]

theorem isFunction_congr {a b : WSymbol} (h : a.symbolKind = b.symbolKind) :
    a.isFunction = b.isFunction := by
  unfold WSymbol.isFunction
  rw [h]

theorem stMono_back {st st' : WriterState} (h : StMono st st') (id : Nat)
    (s' : WSymbol) (hs' : st'.syms[id]? = some s') :
    ∃ s : WSymbol, st.syms[id]? = some s ∧ s'.symbolKind = s.symbolKind ∧
      (s.outputIndex.isSome = true → s'.outputIndex = s.outputIndex) := by
  obtain ⟨hlen, hmap, _, _⟩ := h
  have hlt : id < st.syms.length := by
    have := (List.getElem?_eq_some.mp hs').1
    omega
  have hsome : st.syms[id]? = some st.syms[id] := List.getElem?_eq_some.mpr ⟨hlt, rfl⟩
  obtain ⟨s'', hs'', hk, _, _, ho⟩ := hmap id _ hsome
  rw [hs'] at hs''
  injection hs'' with he
  subst he
  exact ⟨st.syms[id], hsome, hk, ho⟩

/-- Once a non-defined symbol has its output index, that stays so under
monotone evolution. -/
def NonDefIndexed (st : WriterState) (id : Nat) : Prop :=
  ∀ s : WSymbol, st.syms[id]? = some s → s.isDefined = false →
    s.outputIndex.isSome = true

theorem nonDefIndexed_mono {st st' : WriterState} (h : StMono st st') (id : Nat)
    (hnd : NonDefIndexed st id) : NonDefIndexed st' id := by
  intro s' hs' hdef'
  obtain ⟨s, hs, hkind, ho⟩ := stMono_back h id s' hs'
  have hdef : s.isDefined = false := by
    rw [← isDefined_congr hkind]
    exact hdef'
  have hsome := hnd s hs hdef
  rw [ho hsome]
  exact hsome

theorem calcImportsStep_nonDefIndexed (st : WriterState) (id₀ : Nat)
    (hInv : ImportInv st) : NonDefIndexed (calcImportsStep st id₀) id₀ := by
  intro s' hs' hdef'
  obtain ⟨_, hMono, hVis⟩ := calcImportsStep_inv st id₀ hInv
  obtain ⟨s, hs, hkind, _⟩ := stMono_back hMono id₀ s' hs'
  have hdef : s.isDefined = false := by
    rw [← isDefined_congr hkind]
    exact hdef'
  obtain ⟨s1, hs1, hsome1⟩ := hVis s hs hdef
  rw [hs'] at hs1
  injection hs1 with he
  subst he
  exact hsome1

theorem foldl_calcImports_inv (ids : List Nat) (st : WriterState)
    (hInv : ImportInv st) :
    ImportInv (ids.foldl calcImportsStep st) ∧
    StMono st (ids.foldl calcImportsStep st) ∧
    (∀ id ∈ ids, NonDefIndexed (ids.foldl calcImportsStep st) id) := by
  induction ids generalizing st with
  | nil => exact ⟨hInv, stMono_refl st, by simp⟩
  | cons id₀ rest ih =>
    obtain ⟨hInv', hMono₁, _⟩ := calcImportsStep_inv st id₀ hInv
    obtain ⟨hInvF, hMonoF, hVisF⟩ := ih (calcImportsStep st id₀) hInv'
    rw [List.foldl_cons]
    refine ⟨hInvF, stMono_trans hMono₁ hMonoF, ?_⟩
    intro id hid
    rcases List.mem_cons.mp hid with rfl | hmem
    · exact nonDefIndexed_mono hMonoF id
        (calcImportsStep_nonDefIndexed st id hInv)
    · exact hVisF id hmem

theorem calculateImports_inv (objs : List WObject) (st : WriterState)
    (hInv : ImportInv st) :
    ImportInv (calculateImports objs st) ∧
    StMono st (calculateImports objs st) ∧
    (∀ o ∈ objs, ∀ id ∈ o.symRefs, NonDefIndexed (calculateImports objs st) id) := by
  induction objs generalizing st with
  | nil => exact ⟨hInv, stMono_refl st, by simp⟩
  | cons o rest ih =>
    obtain ⟨hInv', hMono₁, hVis₁⟩ := foldl_calcImports_inv o.symRefs st hInv
    obtain ⟨hInvF, hMonoF, hVisF⟩ := ih (o.symRefs.foldl calcImportsStep st) hInv'
    have hstep : calculateImports (o :: rest) st =
        calculateImports rest (o.symRefs.foldl calcImportsStep st) := by
      rw [calculateImports, List.foldl_cons, ← calculateImports]
    rw [hstep]
    refine ⟨hInvF, stMono_trans hMono₁ hMonoF, ?_⟩
    intro o' ho' id hid
    rcases List.mem_cons.mp ho' with rfl | hmem
    · exact nonDefIndexed_mono hMonoF id (hVis₁ id hid)
    · exact hVisF o' hmem id hid

/-- Sum of `functions().size()` over a list of objects. -/
def sumFuncs (objs : List WObject) : Nat :=
  (objs.map (fun o => o.numFunctions)).sum

theorem calcOffsetsGo_funcOffset (relocatable : Bool) (fiLen giLen : Nat)
    (objs : List WObject) (tt tf tg : Nat)
    (hsub : ∀ o ∈ objs, o.numFuncImports ≤ fiLen)
    (hov : fiLen + tf + sumFuncs objs < 2 ^ 32) :
    ∀ i o, objs[i]? = some o →
      ∃ o', (calcOffsetsGo relocatable fiLen giLen objs tt tf tg)[i]? = some o' ∧
        o'.funcIndexOffset = fiLen - o.numFuncImports + tf + sumFuncs (objs.take i) ∧
        o'.symRefs = o.symRefs ∧ o'.numFunctions = o.numFunctions ∧
        o'.numFuncImports = o.numFuncImports := by
  induction objs generalizing tt tf tg with
  | nil =>
    intro i o hi
    simp at hi
  | cons o₀ rest ih =>
    intro i o hi
    have hsum : sumFuncs (o₀ :: rest) = o₀.numFunctions + sumFuncs rest := by
      simp [sumFuncs]
    cases i with
    | zero =>
      simp only [List.getElem?_cons_zero, Option.some_inj] at hi
      subst hi
      have hget : (calcOffsetsGo relocatable fiLen giLen (o₀ :: rest) tt tf tg)[0]? =
          some { o₀ with
            typeIndexOffset := tt
            funcIndexOffset := (fiLen + 2 ^ 64 - o₀.numFuncImports + tf) % 2 ^ 32
            globalIndexOffset :=
              if relocatable then (giLen + 2 ^ 64 - o₀.numGlobalImports + tg) % 2 ^ 32
              else o₀.globalIndexOffset } := by
        simp [calcOffsetsGo]
      refine ⟨_, hget, ?_, rfl, rfl, rfl⟩
      have hle : o₀.numFuncImports ≤ fiLen := hsub o₀ (List.mem_cons_self o₀ rest)
      simp only [List.take_zero, sumFuncs, List.map_nil, List.sum_nil]
      rw [hsum] at hov
      omega
    | succ j =>
      simp only [List.getElem?_cons_succ] at hi
      have htf : (tf + o₀.numFunctions) % 2 ^ 32 = tf + o₀.numFunctions := by
        rw [hsum] at hov
        apply Nat.mod_eq_of_lt
        omega
      have hsub' : ∀ o ∈ rest, o.numFuncImports ≤ fiLen :=
        fun o ho => hsub o (List.mem_cons_of_mem _ ho)
      have hov' : fiLen + (tf + o₀.numFunctions) + sumFuncs rest < 2 ^ 32 := by
        rw [hsum] at hov
        omega
      obtain ⟨o', ho', hoff, hrefs, hnf, hfi⟩ := ih
        ((tt + o₀.numTypes) % 2 ^ 32) ((tf + o₀.numFunctions) % 2 ^ 32)
        (if relocatable then (tg + o₀.numGlobals) % 2 ^ 32 else tg) hsub'
        (by rw [htf]; exact hov') j o hi
      refine ⟨o', ?_, ?_, hrefs, hnf, hfi⟩
      · simp only [calcOffsetsGo, List.getElem?_cons_succ]
        exact ho'
      · rw [hoff, htf, List.take_succ_cons]
        have hsum' : sumFuncs (o₀ :: List.take j rest) =
            o₀.numFunctions + sumFuncs (List.take j rest) := by
          simp [sumFuncs]
        rw [hsum']
        have hle : o.numFuncImports ≤ fiLen := by
          apply hsub'
          exact List.getElem?_mem hi
        omega

theorem wsymbol_ext {a b : WSymbol} (h1 : a.symbolKind = b.symbolKind)
    (h2 : a.file = b.file) (h3 : a.elemIndex = b.elemIndex)
    (h4 : a.outputIndex = b.outputIndex) : a = b := by
  cases a
  cases b
  simp_all

/-- The output index chosen by `assignSymbolIndexes` for a defined symbol
owned by object `o`. -/
def assignValue (s : WSymbol) (o : WObject) : Nat :=
  if s.isFunction = true then (o.funcIndexOffset + s.elemIndex) % 2 ^ 32
  else (o.globalIndexOffset + s.elemIndex) % 2 ^ 32

/-- Frame property of the assignment phase: every symbol entry is either
untouched or has received exactly the output index `assignValue` computed
from its own fields and its owning object. -/
def AssignFrame (objs : List WObject) (st st' : WriterState) : Prop :=
  ∀ (id : Nat) (s : WSymbol), st.syms[id]? = some s →
    st'.syms[id]? = some s ∨
    (s.outputIndex = none ∧ s.isDefined = true ∧
      ∃ k o, s.file = some k ∧ objs[k]? = some o ∧
        st'.syms[id]? = some { s with outputIndex := some (assignValue s o) })

theorem assignFrame_refl (objs : List WObject) (st : WriterState) :
    AssignFrame objs st st :=
  fun _ _ hs => Or.inl hs

theorem assignFrame_trans {objs : List WObject} {a b c : WriterState}
    (h1 : AssignFrame objs a b) (h2 : AssignFrame objs b c) :
    AssignFrame objs a c := by
  intro id s hs
  rcases h1 id s hs with hb | ⟨hnone, hdef, k, o, hfile, hobj, hb⟩
  · exact h2 id s hb
  · rcases h2 id _ hb with hc | ⟨hnone', _, _, _, _, _, _⟩
    · exact Or.inr ⟨hnone, hdef, k, o, hfile, hobj, hc⟩
    · simp at hnone'

theorem assignStep_spec (objs : List WObject) (st : WriterState) (id₀ : Nat) :
    StMono st (assignStep objs st id₀) ∧
    AssignFrame objs st (assignStep objs st id₀) ∧
    (∀ s : WSymbol, st.syms[id₀]? = some s → s.isDefined = true →
      s.outputIndex = none → ∀ k o, s.file = some k → objs[k]? = some o →
      (assignStep objs st id₀).syms[id₀]? =
        some { s with outputIndex := some (assignValue s o) }) := by
  cases hs : st.syms[id₀]? with
  | none =>
    have hR : assignStep objs st id₀ = st := by
      unfold assignStep
      rw [hs]
    rw [hR]
    refine ⟨stMono_refl st, assignFrame_refl objs st, ?_⟩
    intro s hs'
    simp [hs] at hs'
  | some s₀ =>
    have hlen : id₀ < st.syms.length := by
      rcases List.getElem?_eq_some.mp hs with ⟨h, _⟩
      exact h
    by_cases hskip : (s₀.outputIndex.isSome || !s₀.isDefined) = true
    · have hR : assignStep objs st id₀ = st := by
        unfold assignStep
        rw [hs]
        simp [hskip]
      rw [hR]
      refine ⟨stMono_refl st, assignFrame_refl objs st, ?_⟩
      intro s hs' hdef hnone k o _ _
      injection hs' with hss
      subst hss
      rcases Bool.or_eq_true_iff.mp hskip with h | h
      · rw [hnone] at h
        cases h
      · rw [Bool.not_eq_true'] at h
        rw [h] at hdef
        cases hdef
    · have hnone : s₀.outputIndex = none := by
        rcases ho : s₀.outputIndex with _ | v
        · rfl
        · rw [ho] at hskip
          simp at hskip
      have hdef : s₀.isDefined = true := by
        rcases hd : s₀.isDefined
        · rw [hd] at hskip
          simp at hskip
        · rfl
      cases hfile : s₀.file with
      | none =>
        have hR : assignStep objs st id₀ = st := by
          unfold assignStep
          rw [hs]
          simp [hskip, hfile]
        rw [hR]
        refine ⟨stMono_refl st, assignFrame_refl objs st, ?_⟩
        intro s hs' _ _ k o hfile' _
        injection hs' with hss
        subst hss
        rw [hfile] at hfile'
        cases hfile'
      | some k₀ =>
        cases hobj : objs[k₀]? with
        | none =>
          have hR : assignStep objs st id₀ = st := by
            unfold assignStep
            rw [hs]
            simp [hskip, hfile, hobj]
          rw [hR]
          refine ⟨stMono_refl st, assignFrame_refl objs st, ?_⟩
          intro s hs' _ _ k o hfile' hobj'
          injection hs' with hss
          subst hss
          rw [hfile] at hfile'
          injection hfile' with hkk
          subst hkk
          rw [hobj] at hobj'
          cases hobj'
        | some o₀ =>
          have hval : ∀ v : Nat, (setOutputIndex st id₀ v) =
              { st with syms := st.syms.set id₀ { s₀ with outputIndex := some v } } := by
            intro v
            simp [setOutputIndex, hs, hnone]
          have hR : assignStep objs st id₀ =
              { syms := st.syms.set id₀
                  { s₀ with outputIndex := some (assignValue s₀ o₀) }
                functionImports := st.functionImports
                globalImports := st.globalImports
                assertFailed := st.assertFailed } := by
            unfold assignStep
            rw [hs]
            by_cases hf : s₀.isFunction = true
            · simp only [hskip, Bool.false_eq_true, if_false, hfile, hobj, hf, if_true]
              rw [hval]
              simp [assignValue, hf, hnone, hdef, hfile]
            · simp only [hskip, Bool.false_eq_true, if_false, hfile, hobj, hf, ite_false]
              rw [hval]
              simp [assignValue, hf, hnone, hdef, hfile]
          rw [hR]
          refine ⟨⟨by simp, ?_, fun _ h => h, fun _ h => h⟩, ?_, ?_⟩
          · intro id s hsid
            by_cases heq : id = id₀
            · subst heq
              rw [hs] at hsid
              injection hsid with hss
              subst hss
              refine ⟨{ s₀ with outputIndex := some (assignValue s₀ o₀) },
                by simp [List.getElem?_set_self hlen], rfl, rfl, rfl, ?_⟩
              intro hsome
              rw [hnone] at hsome
              cases hsome
            · exact ⟨s, by simp [List.getElem?_set_ne (fun he => heq he.symm), hsid],
                rfl, rfl, rfl, fun _ => rfl⟩
          · intro id s hsid
            by_cases heq : id = id₀
            · subst heq
              rw [hs] at hsid
              injection hsid with hss
              subst hss
              refine Or.inr ⟨hnone, hdef, k₀, o₀, hfile, hobj, ?_⟩
              simp [List.getElem?_set_self hlen]
            · exact Or.inl (by simp [List.getElem?_set_ne (fun he => heq he.symm), hsid])
          · intro s hs' _ _ k o hfile' hobj'
            injection hs' with hss
            subst hss
            rw [hfile] at hfile'
            injection hfile' with hkk
            subst hkk
            rw [hobj] at hobj'
            injection hobj' with hoo
            subst hoo
            simp [List.getElem?_set_self hlen]

theorem foldl_assign_spec (objs : List WObject) (ids : List Nat) (st : WriterState) :
    StMono st (ids.foldl (assignStep objs) st) ∧
    AssignFrame objs st (ids.foldl (assignStep objs) st) ∧
    (∀ id ∈ ids, ∀ s : WSymbol, st.syms[id]? = some s → s.isDefined = true →
      s.outputIndex = none → ∀ k o, s.file = some k → objs[k]? = some o →
      (ids.foldl (assignStep objs) st).syms[id]? =
        some { s with outputIndex := some (assignValue s o) }) := by
  induction ids generalizing st with
  | nil => exact ⟨stMono_refl st, assignFrame_refl objs st, by simp⟩
  | cons id₀ rest ih =>
    obtain ⟨hM1, hF1, hV1⟩ := assignStep_spec objs st id₀
    obtain ⟨hMF, hFF, hVF⟩ := ih (assignStep objs st id₀)
    rw [List.foldl_cons]
    refine ⟨stMono_trans hM1 hMF, assignFrame_trans hF1 hFF, ?_⟩
    intro id hid s hsid hdef hnone k o hfile hobj
    rcases List.mem_cons.mp hid with rfl | hmem
    · have hstep := hV1 s hsid hdef hnone k o hfile hobj
      obtain ⟨s', hs', hk, hfi, he, ho⟩ := hMF.2.1 id _ hstep
      have hse : s' = { s with outputIndex := some (assignValue s o) } :=
        wsymbol_ext hk hfi he (ho (by simp))
      rw [hs', hse]
    · rcases hF1 id s hsid with hunch | ⟨_, _, k2, o2, hfile2, hobj2, hset⟩
      · exact hVF id hmem s hunch hdef hnone k o hfile hobj
      · rw [hfile] at hfile2
        injection hfile2 with hkk
        subst hkk
        rw [hobj] at hobj2
        injection hobj2 with hoo
        subst hoo
        obtain ⟨s', hs', hk, hfi, he, ho⟩ := hMF.2.1 id _ hset
        have hse : s' = { s with outputIndex := some (assignValue s o) } :=
          wsymbol_ext hk hfi he (ho (by simp))
        rw [hs', hse]

theorem foldl_objs_assign_spec (objs iter : List WObject) (st : WriterState) :
    StMono st (iter.foldl (fun acc o => o.symRefs.foldl (assignStep objs) acc) st) ∧
    AssignFrame objs st
      (iter.foldl (fun acc o => o.symRefs.foldl (assignStep objs) acc) st) ∧
    (∀ o' ∈ iter, ∀ id ∈ o'.symRefs, ∀ s : WSymbol, st.syms[id]? = some s →
      s.isDefined = true → s.outputIndex = none → ∀ k o, s.file = some k →
      objs[k]? = some o →
      (iter.foldl (fun acc o => o.symRefs.foldl (assignStep objs) acc) st).syms[id]? =
        some { s with outputIndex := some (assignValue s o) }) := by
  induction iter generalizing st with
  | nil => exact ⟨stMono_refl st, assignFrame_refl objs st, by simp⟩
  | cons o₁ rest ih =>
    obtain ⟨hM1, hF1, hV1⟩ := foldl_assign_spec objs o₁.symRefs st
    obtain ⟨hMF, hFF, hVF⟩ := ih (o₁.symRefs.foldl (assignStep objs) st)
    rw [List.foldl_cons]
    refine ⟨stMono_trans hM1 hMF, assignFrame_trans hF1 hFF, ?_⟩
    intro o' ho' id hid s hsid hdef hnone k o hfile hobj
    rcases List.mem_cons.mp ho' with rfl | hmem
    · have hstep := hV1 id hid s hsid hdef hnone k o hfile hobj
      obtain ⟨s', hs', hk, hfi, he, ho2⟩ := hMF.2.1 id _ hstep
      have hse : s' = { s with outputIndex := some (assignValue s o) } :=
        wsymbol_ext hk hfi he (ho2 (by simp))
      rw [hs', hse]
    · rcases hF1 id s hsid with hunch | ⟨_, _, k2, o2, hfile2, hobj2, hset⟩
      · exact hVF o' hmem id hid s hunch hdef hnone k o hfile hobj
      · rw [hfile] at hfile2
        injection hfile2 with hkk
        subst hkk
        rw [hobj] at hobj2
        injection hobj2 with hoo
        subst hoo
        obtain ⟨s', hs', hk, hfi, he, ho2⟩ := hMF.2.1 id _ hset
        have hse : s' = { s with outputIndex := some (assignValue s o) } :=
          wsymbol_ext hk hfi he (ho2 (by simp))
        rw [hs', hse]

/-- C1: at the start of the writer every symbol either has no output index
or is Defined (only the synthetic stack pointer was assigned by the
driver).  Then (a)/(b) `calculateImports` gives still-undefined symbols
dense import indices — the `j`-th function import has output index `j`, and
global imports are numbered independently; (c) every discovered non-Defined
symbol receives an import index; (d) `calculateOffsets` gives object `i`
`FunctionIndexOffset = (total function imports) - (its own function
imports) + (sum of function counts of earlier objects)` (under the
no-underflow/no-overflow side conditions of the `uint32` arithmetic); and
(e) `assignSymbolIndexes` gives every Defined symbol owned by object `k`
the output index `FunctionIndexOffset + file-local function index` (resp.
`GlobalIndexOffset + file-local global index`). -/
theorem claim_C1_index_assignment (relocatable : Bool) (numSynGlobals : Nat)
    (objs : List WObject) (st0 st1 : WriterState) (objs' : List WObject)
    (hFI : st0.functionImports = []) (hGI : st0.globalImports = [])
    (hpre : ∀ s ∈ st0.syms, s.outputIndex = none ∨ s.isDefined = true)
    (hst1 : st1 = calculateImports objs st0)
    (hobjs' : objs' = calculateOffsets relocatable st1.functionImports.length
      st1.globalImports.length numSynGlobals objs)
    (hsub : ∀ o ∈ objs, o.numFuncImports ≤ st1.functionImports.length)
    (hov : st1.functionImports.length + sumFuncs objs < 2 ^ 32) :
    (∀ (j id : Nat), st1.functionImports[j]? = some id →
      ∃ s : WSymbol, st1.syms[id]? = some s ∧
        s.outputIndex = some j ∧ s.isDefined = false ∧ s.isFunction = true) ∧
    (∀ (j id : Nat), st1.globalImports[j]? = some id →
      ∃ s : WSymbol, st1.syms[id]? = some s ∧
        s.outputIndex = some j ∧ s.isDefined = false ∧ s.isFunction = false) ∧
    (∀ o ∈ objs, ∀ id ∈ o.symRefs, ∀ s : WSymbol,
      st1.syms[id]? = some s → s.isDefined = false →
      s.outputIndex.isSome = true) ∧
    (∀ (i : Nat) (o : WObject), objs[i]? = some o →
      ∃ o', objs'[i]? = some o' ∧
        o'.funcIndexOffset = st1.functionImports.length - o.numFuncImports +
          sumFuncs (objs.take i) ∧
        o'.symRefs = o.symRefs ∧ o'.numFunctions = o.numFunctions ∧
        o'.numFuncImports = o.numFuncImports) ∧
    (∀ o' ∈ objs', ∀ id ∈ o'.symRefs, ∀ s : WSymbol,
      st1.syms[id]? = some s → s.isDefined = true → s.outputIndex = none →
      ∀ (k : Nat) (ok : WObject), s.file = some k → objs'[k]? = some ok →
      ∃ s', (assignSymbolIndexes objs' st1).syms[id]? = some s' ∧
        (s.isFunction = true →
          s'.outputIndex = some ((ok.funcIndexOffset + s.elemIndex) % 2 ^ 32)) ∧
        (s.isFunction = false →
          s'.outputIndex = some ((ok.globalIndexOffset + s.elemIndex) % 2 ^ 32))) := by
  have hInv0 : ImportInv st0 := by
    refine ⟨?_, ?_, ?_⟩
    · intro j id h
      rw [hFI] at h
      simp at h
    · intro j id h
      rw [hGI] at h
      simp at h
    · intro id s hs hdef hsome
      exfalso
      rcases hpre s (List.getElem?_mem hs) with h | h
      · rw [h] at hsome
        cases hsome
      · rw [h] at hdef
        cases hdef
  obtain ⟨hInv1, _, hVis1⟩ := calculateImports_inv objs st0 hInv0
  rw [← hst1] at hInv1 hVis1
  refine ⟨hInv1.1, hInv1.2.1, ?_, ?_, ?_⟩
  · intro o ho id hid s hs hdef
    exact hVis1 o ho id hid s hs hdef
  · intro i o hi
    have hov0 : st1.functionImports.length + 0 + sumFuncs objs < 2 ^ 32 := by
      omega
    obtain ⟨o', ho', hoff, hrefs, hnf, hfi⟩ :=
      calcOffsetsGo_funcOffset relocatable st1.functionImports.length
        st1.globalImports.length objs 0 0 numSynGlobals hsub hov0 i o hi
    refine ⟨o', ?_, ?_, hrefs, hnf, hfi⟩
    · rw [hobjs', calculateOffsets]
      exact ho'
    · rw [hoff]
      omega
  · intro o' ho' id hid s hs hdef hnone k ok hfile hobj
    obtain ⟨_, _, hVisA⟩ := foldl_objs_assign_spec objs' objs' st1
    have hfin := hVisA o' ho' id hid s hs hdef hnone k ok hfile hobj
    refine ⟨{ s with outputIndex := some (assignValue s ok) }, hfin, ?_, ?_⟩
    · intro hf
      simp [assignValue, hf]
    · intro hf
      simp [assignValue, hf]

/-- Initial writer state of the C1 witness: a stack pointer already
assigned by the driver, an undefined function and a defined function. -/
def c1St0 : WriterState :=
  { syms := [⟨SymbolKind.DefinedGlobalKind, none, 0, some 0⟩,
             ⟨SymbolKind.UndefinedFunctionKind, some 0, 0, none⟩,
             ⟨SymbolKind.DefinedFunctionKind, some 0, 1, none⟩]
    functionImports := []
    globalImports := []
    assertFailed := false }

/-- Single input object of the C1 witness: one function import (symbol 1)
and one locally defined function (symbol 2). -/
def c1Objs : List WObject :=
  [{ symRefs := [1, 2], numTypes := 1, numFunctions := 1, numGlobals := 0,
     numFuncImports := 1, numGlobalImports := 0, typeIndexOffset := 0,
     funcIndexOffset := 0, globalIndexOffset := 0 }]

theorem claim_C1_witness :
    (c1St0.functionImports = [] ∧ c1St0.globalImports = [] ∧
      (∀ s ∈ c1St0.syms, s.outputIndex = none ∨ s.isDefined = true) ∧
      (∀ o ∈ c1Objs, o.numFuncImports ≤
        (calculateImports c1Objs c1St0).functionImports.length) ∧
      (calculateImports c1Objs c1St0).functionImports.length + sumFuncs c1Objs <
        2 ^ 32) ∧
    (∃ s : WSymbol, (calculateImports c1Objs c1St0).syms[1]? = some s ∧
      s.outputIndex = some 0 ∧ s.isDefined = false ∧ s.isFunction = true) :=
  ⟨⟨by decide, by decide, by decide, by decide, by decide⟩,
   (claim_C1_index_assignment false 1 c1Objs c1St0 (calculateImports c1Objs c1St0)
      (calculateOffsets false (calculateImports c1Objs c1St0).functionImports.length
        (calculateImports c1Objs c1St0).globalImports.length 1 c1Objs)
      (by decide) (by decide) (by decide) rfl rfl (by decide) (by decide)).1 0 1
      (by decide)⟩

end LldWasm
